import Mathlib

/-!
Verification development for the FiberFoundation/Bag repository.

The repository has two source components:
  * src/Support.js : recursive `freeze` / `unfreeze` over plain objects
    (only plain-data mappings are traversed; arrays, class instances and
    other non-plain values are opaque leaves);
  * src/index.js : the Bag class, an attribute container built on lodash
    path helpers (get, set, has, unset, extend, defaults, each) plus the
    guard/unguard/mutate state machine and an optional AttributeModel
    value-wrapping hook.

The embedding below models the JavaScript value universe as the inductive
type Value.  A plain object carries an explicit frozen flag (the result of
Object.freeze); arrays and AttributeModel instances are non-plain objects
with own properties of their own: an array holds its indexed elements plus
any string-keyed own properties, and a model instance holds the own
properties its constructor assigned.  lodash's path helpers read and write
through all three kinds of object alike, and the model does too.
Shallow-embedding notes, all taken from the actual sources:

  * Support.js is an ES module, hence strict mode: the statement
    object[key] = freeze(value) inside freeze throws a TypeError when
    object is already frozen.  freeze is therefore modeled as an
    Except-valued function (freezeE).
  * lodash itself is distributed as a sloppy-mode script, so the
    assignments inside _.set / _.unset (delete) / extend / _.defaults
    fail *silently* on frozen objects; those operations are modeled as
    total functions that leave frozen plain mappings unchanged.  Only
    plain mappings are ever frozen by the Bag itself (Support.freeze
    skips non-plain values), so arrays and model instances are modeled
    as always mutable; values frozen by the caller before being handed
    to the Bag are modeled only for plain mappings (the frozen flag on
    obj), not for arrays or instances.
  * The AttributeModel constructor is arbitrary single-argument user
    code; it is modeled as the factory the Bag stores (attrModel),
    mapping the raw value to the own properties of the fresh instance,
    exactly the configurable-factory reading the design notes give.
  * _.get / _.set path resolution: a key without a dot (including the
    empty string) is a single segment; a key with dots is split on dots.
    A segment that is the canonical decimal form of a number addresses
    an array element; any other segment on an array addresses a
    string-keyed own property of the array object.  Bracket path syntax,
    prototype-chain reads (class methods, array length) and writes to
    array length are not used by any claim and are not modeled.
  * In JavaScript a stored `undefined` is indistinguishable from an
    absent value for _.get (which substitutes the fallback for an
    undefined result) while _.has sees the own key; the model mirrors
    this with childAt (undef collapses to none) versus hasOwn.
  * Array elements removed by delete or created by sparse writes are
    holes; the model represents holes as undef items (hasOwn conflates
    an explicitly stored undefined element with a hole; no claim
    depends on the difference).
  * The Bag's guarded flag lives in a WeakMap touched only by guard()
    and unguard(); absence of an entry (WeakMap.get returning undefined)
    is modeled as the gstate field being none.
-/

/-- JavaScript values as manipulated by the Bag container.  `obj` is a
plain-data mapping (lodash isPlainObject) with its Object.freeze flag and
its own enumerable entries in insertion order; `arr` is an array with its
indexed elements and its string-keyed own properties; `model` is an
instance of the configured AttributeModel with the own properties its
constructor assigned; the remaining constructors are primitives. -/
inductive Value where
  | undef : Value
  | vnull : Value
  | num : Int → Value
  | str : String → Value
  | obj : Bool → List (String × Value) → Value
  | arr : List Value → List (String × Value) → Value
  | model : List (String × Value) → Value
deriving Repr

/-- Whether a value is the JavaScript undefined. -/
def isUndef : Value → Bool
  | .undef => true
  | _ => false

/-- lodash isObject: true for objects, arrays and functions; false for
primitives, null and undefined. -/
def isObjectV : Value → Bool
  | .obj _ _ => true
  | .arr _ _ => true
  | .model _ => true
  | _ => false

/-- Whether a value is a plain-data mapping (lodash isPlainObject). -/
def isObjB : Value → Bool
  | .obj _ _ => true
  | _ => false

/-- A path segment that lodash treats as a valid array index: the
canonical decimal representation of a natural number (digits only, no
leading zero except for "0" itself). -/
def isIndexSeg (s : String) : Bool :=
  match s.data with
  | [] => false
  | [c] => c.isDigit
  | c :: rest => c.isDigit && !(c == '0') && rest.all Char.isDigit

/-- Decimal value of a digit string. -/
def charsToNat (cs : List Char) : Nat :=
  cs.foldl (fun a c => a * 10 + (c.toNat - 48)) 0

/-- The array index denoted by a path segment, when it is one. -/
def segIndex? (s : String) : Option Nat :=
  if isIndexSeg s then some (charsToNat s.data) else none

/-- First entry stored under a key (JavaScript object keys are unique,
so the first match is the value of the property). -/
def lookupEntry : List (String × Value) → String → Option Value
  | [], _ => none
  | kv :: rest, k => if kv.1 == k then some kv.2 else lookupEntry rest k

/-- Property assignment on an entry list: an existing key keeps its
position and gets the new value, a new key is appended (JavaScript
property-creation order). -/
def setEntry : List (String × Value) → String → Value → List (String × Value)
  | [], k, v => [(k, v)]
  | kv :: rest, k, v => if kv.1 == k then (k, v) :: rest else kv :: setEntry rest k v

/-- Property deletion on an entry list. -/
def removeEntry (es : List (String × Value)) (k : String) : List (String × Value) :=
  es.filter (fun kv => kv.1 != k)

/-- Array element assignment; writing past the end fills the gap with
holes (undefined), as JavaScript sparse assignment does. -/
def padSet : List Value → Nat → Value → List Value
  | [], 0, v => [v]
  | [], n + 1, v => .undef :: padSet [] n v
  | _ :: rest, 0, v => v :: rest
  | x :: rest, n + 1, v => x :: padSet rest n v

/-- Split a character list at every dot. -/
def splitDots : List Char → List Char → List String
  | [], acc => [String.mk acc.reverse]
  | c :: rest, acc =>
      if c == '.' then String.mk acc.reverse :: splitDots rest []
      else splitDots rest (c :: acc)

/-- lodash castPath on the string keys the Bag uses: a key containing a
dot is split on dots (stringToPath); any other key, the empty string
included, is a single path segment (isKey). -/
def splitKey (k : String) : List String :=
  if k.data.contains '.' then splitDots k.data [] else [k]

/-- Reading an own property from an entry list the way lodash sees it:
absent keys and keys holding a stored undefined are both undefined
(none), which ends a path traversal exactly as the object != null loop
guard does. -/
def entryAt (es : List (String × Value)) (k : String) : Option Value :=
  match lookupEntry es k with
  | some .undef => none
  | some v => some v
  | none => none

/-- Reading one step of a lodash path: the own property of a plain
mapping, a model instance, or an array (an indexed element for an index
segment, a string-keyed property otherwise); reading from a primitive
yields undefined (none). -/
def childAt (t : Value) (k : String) : Option Value :=
  match t with
  | .obj _ es => entryAt es k
  | .arr items props =>
      match segIndex? k with
      | some i =>
          match items[i]? with
          | some .undef => none
          | some v => some v
          | none => none
      | none => entryAt props k
  | .model es => entryAt es k
  | _ => none

/-- lodash baseGet: walk the path; an undefined intermediate or result
makes the whole read undefined (none). -/
def getPath (t : Value) : List String → Option Value
  | [] => some t
  | k :: rest =>
      match childAt t k with
      | some c => getPath c rest
      | none => none

/-- lodash assignValue at a single key.  The assignment inside lodash is
non-strict, so on a frozen plain object it fails silently; arrays and
model instances are mutable objects and take the write (an index segment
writes the element, any other segment a string-keyed property);
assignment onto a primitive is a no-op. -/
def assignValue (t : Value) (k : String) (v : Value) : Value :=
  match t with
  | .obj true es => .obj true es
  | .obj false es => .obj false (setEntry es k v)
  | .arr items props =>
      match segIndex? k with
      | some i => .arr (padSet items i v) props
      | none => .arr items (setEntry props k v)
  | .model es => .model (setEntry es k v)
  | t => t

/-- The fresh node lodash baseSet creates for a missing or primitive
intermediate: an empty array when the next segment is an index, an empty
plain object otherwise. -/
def freshFor (rest : List String) : Value :=
  if isIndexSeg (rest.headD "") then .arr [] [] else .obj false []

/-- lodash baseSet: walk the path, keeping an existing object child
(plain mapping, array or model instance) as the next step and replacing
a primitive or absent child by a fresh node.  The intermediate
assignment is skipped when the child is kept (assignValue's eq check)
and fails silently on a frozen plain object, in which case the walk
continues through the old child when that child is an object and dies
otherwise. -/
def setPath : Value → List String → Value → Value
  | t, [], _ => t
  | t, k :: rest, v =>
    if rest.isEmpty then assignValue t k v
    else
      match t with
      | .obj fz es =>
          let objValue := (lookupEntry es k).getD .undef
          if fz then
            if isObjectV objValue then .obj true (setEntry es k (setPath objValue rest v))
            else .obj true es
          else
            let newChild := if isObjectV objValue then objValue else freshFor rest
            .obj false (setEntry es k (setPath newChild rest v))
      | .arr items props =>
          (match segIndex? k with
          | some i =>
              let objValue := (items[i]?).getD .undef
              let newChild := if isObjectV objValue then objValue else freshFor rest
              .arr (padSet items i (setPath newChild rest v)) props
          | none =>
              let objValue := (lookupEntry props k).getD .undef
              let newChild := if isObjectV objValue then objValue else freshFor rest
              .arr items (setEntry props k (setPath newChild rest v)))
      | .model es =>
          let objValue := (lookupEntry es k).getD .undef
          let newChild := if isObjectV objValue then objValue else freshFor rest
          .model (setEntry es k (setPath newChild rest v))
      | t => t

/-- Whether lodash baseSet's walk for this path actually reaches a
mutable location and performs the final assignment: it mirrors setPath
step by step.  A frozen plain mapping takes no direct write and, when
its child along the path is missing or primitive, kills the walk; a
primitive target takes no write; arrays and model instances always
take it. -/
def setOkB : Value → List String → Bool
  | _, [] => true
  | t, k :: rest =>
    if rest.isEmpty then
      match t with
      | .obj fz _ => !fz
      | .arr _ _ => true
      | .model _ => true
      | _ => false
    else
      match t with
      | .obj fz es =>
          let objValue := (lookupEntry es k).getD .undef
          if isObjectV objValue then setOkB objValue rest
          else !fz && setOkB (freshFor rest) rest
      | .arr items props =>
          (match segIndex? k with
          | some i =>
              let objValue := (items[i]?).getD .undef
              if isObjectV objValue then setOkB objValue rest
              else setOkB (freshFor rest) rest
          | none =>
              let objValue := (lookupEntry props k).getD .undef
              if isObjectV objValue then setOkB objValue rest
              else setOkB (freshFor rest) rest)
      | .model es =>
          let objValue := (lookupEntry es k).getD .undef
          if isObjectV objValue then setOkB objValue rest
          else setOkB (freshFor rest) rest
      | _ => false

/-- JavaScript delete of one key: silently fails on a frozen plain object
(non-strict lodash code), leaves a hole in an array for an index segment,
removes a string-keyed property of an array or model instance, does
nothing on a primitive. -/
def deleteKey (t : Value) (k : String) : Value :=
  match t with
  | .obj true es => .obj true es
  | .obj false es => .obj false (removeEntry es k)
  | .arr items props =>
      match segIndex? k with
      | some i => if i < items.length then .arr (items.set i .undef) props
                  else .arr items props
      | none => .arr items (removeEntry props k)
  | .model es => .model (removeEntry es k)
  | t => t

/-- lodash baseUnset: resolve the parent of the path by reading, then
delete the final key there. -/
def unsetPath : Value → List String → Value
  | t, [] => t
  | t, k :: rest =>
    if rest.isEmpty then deleteKey t k
    else
      match t with
      | .obj fz es =>
          match lookupEntry es k with
          | some c => .obj fz (setEntry es k (unsetPath c rest))
          | none => .obj fz es
      | .arr items props =>
          (match segIndex? k with
          | some i =>
              match items[i]? with
              | some c => .arr (items.set i (unsetPath c rest)) props
              | none => .arr items props
          | none =>
              match lookupEntry props k with
              | some c => .arr items (setEntry props k (unsetPath c rest))
              | none => .arr items props)
      | .model es =>
          (match lookupEntry es k with
          | some c => .model (setEntry es k (unsetPath c rest))
          | none => .model es)
      | t => t

/-- lodash baseHas step: is the key an own property.  A stored undefined
counts for plain mappings, model instances and array string properties
in JavaScript; the only undefined items our model ever puts in array
element positions are holes, which do not count (an explicitly stored
undefined element is conflated with a hole; no claim depends on it). -/
def hasOwn (t : Value) (k : String) : Bool :=
  match t with
  | .obj _ es => es.any (fun kv => kv.1 == k)
  | .arr items props =>
      match segIndex? k with
      | some i =>
          match items[i]? with
          | some .undef => false
          | some _ => true
          | none => false
      | none => props.any (fun kv => kv.1 == k)
  | .model es => es.any (fun kv => kv.1 == k)
  | _ => false

/-- lodash hasPath: every intermediate segment must be an own property of
a non-null object and the final segment an own property of the resolved
parent. -/
def hasPath (t : Value) : List String → Bool
  | [] => false
  | [k] => hasOwn t k
  | k :: rest =>
      match childAt t k with
      | some c => hasPath c rest
      | none => false

mutual

/-- Support.freeze, from src/Support.js: recursively freeze every plain
child, reassigning it into the parent, then Object.freeze the node.  The
module is strict, so the reassignment object[key] = freeze(value) throws
a TypeError when object itself is already frozen; the thrown case is the
error branch.  Non-plain children (arrays, model instances, primitives)
are skipped.  (On a throw the partial freezing already performed is not
recorded; no claim depends on the post-throw state.) -/
def freezeE : Value → Except Unit Value
  | .obj fz es => do
      let es2 ← freezeEs fz es
      pure (.obj true es2)
  | v => pure v

/-- The key loop of Support.freeze over the own entries of an object
whose frozen flag is fz. -/
def freezeEs (fz : Bool) : List (String × Value) → Except Unit (List (String × Value))
  | [] => pure []
  | (k, v) :: rest =>
      match v with
      | .obj cfz ces => do
          let v2 ← freezeE (.obj cfz ces)
          if fz then throw ()
          else do
            let rest2 ← freezeEs fz rest
            pure ((k, v2) :: rest2)
      | _ => do
          let rest2 ← freezeEs fz rest
          pure ((k, v) :: rest2)

end

mutual

/-- The value Support.freeze produces when it does not throw: every
plain-object node reachable through plain objects gets its frozen flag
set; arrays, model instances and other non-plain values are untouched. -/
def freezeV : Value → Value
  | .obj _ es => .obj true (freezeVEs es)
  | v => v

/-- Entrywise companion of freezeV. -/
def freezeVEs : List (String × Value) → List (String × Value)
  | [] => []
  | (k, v) :: rest =>
      match v with
      | .obj cfz ces => (k, freezeV (.obj cfz ces)) :: freezeVEs rest
      | _ => (k, v) :: freezeVEs rest

end

mutual

/-- Support.unfreeze, from src/Support.js: build a brand-new unfrozen
mapping, recursively unfreezing plain children and carrying every other
value over by reference (here: unchanged). -/
def unfreezeV : Value → Value
  | .obj _ es => .obj false (unfreezeEs es)
  | v => v

/-- The key loop of Support.unfreeze. -/
def unfreezeEs : List (String × Value) → List (String × Value)
  | [] => []
  | (k, v) :: rest =>
      match v with
      | .obj cfz ces => (k, unfreezeV (.obj cfz ces)) :: unfreezeEs rest
      | _ => (k, v) :: unfreezeEs rest

end

mutual

/-- Erase every frozen flag in a value (everywhere, including inside
arrays and model instances): the observable structure of the data,
independent of immutability state. -/
def strip : Value → Value
  | .obj _ es => .obj false (stripEs es)
  | .arr items props => .arr (stripArr items) (stripEs props)
  | .model es => .model (stripEs es)
  | v => v

/-- Entrywise companion of strip. -/
def stripEs : List (String × Value) → List (String × Value)
  | [] => []
  | (k, v) :: rest => (k, strip v) :: stripEs rest

/-- Itemwise companion of strip. -/
def stripArr : List Value → List Value
  | [] => []
  | v :: rest => strip v :: stripArr rest

end

mutual

/-- No plain-object node reachable through plain objects is frozen
(arrays and model instances are opaque to Support.freeze, exactly as in
the code): every write Support.freeze would attempt succeeds. -/
def skelUnfrozen : Value → Bool
  | .obj true _ => false
  | .obj false es => skelUnfrozenEs es
  | _ => true

/-- Entrywise companion of skelUnfrozen. -/
def skelUnfrozenEs : List (String × Value) → Bool
  | [] => true
  | (_, v) :: rest => skelUnfrozen v && skelUnfrozenEs rest

end

mutual

/-- Every plain-object node reachable through plain objects is frozen:
the state Support.freeze establishes. -/
def frozenSkel : Value → Bool
  | .obj fz es => fz && frozenSkelEs es
  | _ => true

/-- Entrywise companion of frozenSkel. -/
def frozenSkelEs : List (String × Value) → Bool
  | [] => true
  | (_, v) :: rest => frozenSkel v && frozenSkelEs rest

end

mutual

/-- The value is built from plain objects and primitives only: no
arrays and no model instances anywhere. -/
def mapsOnly : Value → Bool
  | .obj _ es => mapsOnlyEs es
  | .arr _ _ => false
  | .model _ => false
  | _ => true

/-- Entrywise companion of mapsOnly. -/
def mapsOnlyEs : List (String × Value) → Bool
  | [] => true
  | (_, v) :: rest => mapsOnly v && mapsOnlyEs rest

end

mutual

/-- No frozen plain mapping anywhere in the stored data, looking inside
plain mappings, array elements and properties, and model instances: the
state of any container whose data was never frozen by guard() or by the
caller. -/
def noFrozenB : Value → Bool
  | .obj true _ => false
  | .obj false es => noFrozenEs es
  | .arr items props => noFrozenArr items && noFrozenEs props
  | .model es => noFrozenEs es
  | _ => true

/-- Entrywise companion of noFrozenB. -/
def noFrozenEs : List (String × Value) → Bool
  | [] => true
  | (_, v) :: rest => noFrozenB v && noFrozenEs rest

/-- Itemwise companion of noFrozenB. -/
def noFrozenArr : List Value → Bool
  | [] => true
  | v :: rest => noFrozenB v && noFrozenArr rest

end

mutual

/-- The frozen plain-mapping skeleton of a value: plain mappings keep
their flag, keys and primitive entries, while embedded non-plain values
(arrays, model instances) are collapsed to stubs.  Two values with equal
skelOf agree on everything Support.freeze protects. -/
def skelOf : Value → Value
  | .obj fz es => .obj fz (skelOfEs es)
  | .arr _ _ => .arr [] []
  | .model _ => .model []
  | v => v

/-- Entrywise companion of skelOf. -/
def skelOfEs : List (String × Value) → List (String × Value)
  | [] => []
  | (k, v) :: rest => (k, skelOf v) :: skelOfEs rest

end

/-- The Bag instance, from src/index.js: its attributes object, the
AttributeModel when one was installed (modeled as the factory taking the
raw value to the own properties of the fresh instance, per the
configurable-factory design note), and the per-instance GuardedState
WeakMap entry (none when the WeakMap holds no entry for the instance,
which WeakMap.get reports as undefined). -/
structure Bag where
  attributes : Value
  attrModel : Option (Value → List (String × Value))
  gstate : Option Bool

namespace Bag

/-- Bag.convertToModel: construct a fresh AttributeModel instance from
the value when a model is configured, otherwise return the value raw. -/
def convertToModel (b : Bag) (v : Value) : Value :=
  match b.attrModel with
  | none => v
  | some f => .model (f v)

/-- Bag.set: set(this.attributes, key, this.convertToModel(value)). -/
def set (b : Bag) (k : String) (v : Value) : Bag :=
  { b with attributes := setPath b.attributes (splitKey k) (b.convertToModel v) }

/-- Bag.get: get(this.attributes, key, defaults). -/
def get (b : Bag) (k : String) (fb : Value) : Value :=
  (getPath b.attributes (splitKey k)).getD fb

/-- Bag.get called with no key argument: lodash castPath(undefined)
yields the one-segment path [undefined] and toKey(undefined) is the
string "undefined", so the lookup is of the literal key "undefined". -/
def getNoKey (b : Bag) (fb : Value) : Value :=
  (getPath b.attributes ["undefined"]).getD fb

/-- Bag.has: has(this.attributes, key). -/
def has (b : Bag) (k : String) : Bool :=
  hasPath b.attributes (splitKey k)

/-- Bag.forget: unset(this.attributes, key). -/
def forget (b : Bag) (k : String) : Bag :=
  { b with attributes := unsetPath b.attributes (splitKey k) }

/-- Bag.put: extend(this.attributes, attributes) — shallow merge of the
source's own keys, raw values, silently inert on a frozen target. -/
def put (b : Bag) (src : List (String × Value)) : Bag :=
  match b.attributes with
  | .obj true es => { b with attributes := .obj true es }
  | .obj false es =>
      { b with attributes := .obj false (src.foldl (fun acc kv => setEntry acc kv.1 kv.2) es) }
  | _ => b

/-- The key loop of lodash defaults: assign the default when the current
value of the key is undefined (the key being absent or holding a stored
undefined); assignments happen in source order on the evolving object. -/
def applyDefaults : List (String × Value) → List (String × Value) → List (String × Value)
  | es, [] => es
  | es, (k, dv) :: rest =>
      match lookupEntry es k with
      | none => applyDefaults (es ++ [(k, dv)]) rest
      | some .undef => applyDefaults (setEntry es k dv) rest
      | some _ => applyDefaults es rest

/-- Bag.defaults: defaults(this.attributes, defaultAttributes); the
non-strict assignments are silently inert on a frozen target. -/
def defaults (b : Bag) (src : List (String × Value)) : Bag :=
  match b.attributes with
  | .obj true es => { b with attributes := .obj true es }
  | .obj false es => { b with attributes := .obj false (applyDefaults es src) }
  | _ => b

/-- Bag.guard: freeze(this.attributes) — which can throw — then
GuardedState.set(this, true). -/
def guard (b : Bag) : Except Unit Bag := do
  let fr ← freezeE b.attributes
  pure { b with attributes := fr, gstate := some true }

/-- Bag.unguard: this.attributes = unfreeze(this.attributes);
GuardedState.set(this, false). -/
def unguard (b : Bag) : Bag :=
  { b with attributes := unfreezeV b.attributes, gstate := some false }

/-- Bag.isGuarded: GuardedState.get(this) — undefined (none) when
neither guard nor unguard has ever run on the instance. -/
def isGuarded (b : Bag) : Option Bool :=
  b.gstate

/-- Bag.mutate: unguard when the guarded flag is truthy, write, then
re-guard when it was truthy. -/
def mutate (b : Bag) (k : String) (v : Value) : Except Unit Bag := do
  let ig := b.isGuarded
  let b1 := if ig = some true then b.unguard else b
  let b2 := b1.set k v
  if ig = some true then b2.guard else pure b2

/-- Bag.reset: this.attributes = {}; each supplied entry goes through
this.set (hence through convertToModel); then guard() when the guarded
argument is true. -/
def reset (b : Bag) (attrs : List (String × Value)) (guarded : Bool) : Except Unit Bag := do
  let b1 : Bag := { b with attributes := Value.obj false [] }
  let b2 := attrs.foldl (fun acc kv => acc.set kv.1 kv.2) b1
  if guarded then b2.guard else pure b2

/-- The Bag constructor: install the AttributeModel when one is given,
then reset(attributes, guarded).  A fresh instance has no GuardedState
entry. -/
def mk' (attrs : List (String × Value)) (guarded : Bool)
    (attrModel : Option (Value → List (String × Value))) : Except Unit Bag :=
  Bag.reset { attributes := Value.obj false [], attrModel := attrModel, gstate := none }
    attrs guarded

end Bag

/-- The guarded-immutability invariant the specification asserts: when
the guarded flag is true, every plain-mapping node of the attributes
tree reachable through plain mappings is frozen. -/
def BagInv (b : Bag) : Prop :=
  b.gstate = some true → frozenSkel b.attributes = true

/-! ### Entry-list lemmas -/

theorem lookup_setEntry_self (es : List (String × Value)) (k : String) (v : Value) :
    lookupEntry (setEntry es k v) k = some v := by
  induction es with
  | nil => simp [setEntry, lookupEntry]
  | cons kv rest ih =>
      by_cases h : kv.1 == k
      · simp [setEntry, h, lookupEntry]
      · simp [setEntry, h, lookupEntry, ih]

theorem lookup_setEntry_ne (es : List (String × Value)) (k k' : String) (v : Value)
    (h : k' ≠ k) :
    lookupEntry (setEntry es k v) k' = lookupEntry es k' := by
  have hkk : (k == k') = false := by
    simp only [beq_eq_false_iff_ne, ne_eq]
    exact fun hc => h (Eq.symm hc)
  induction es with
  | nil => simp [setEntry, lookupEntry, hkk]
  | cons kv rest ih =>
      obtain ⟨k0, w⟩ := kv
      by_cases hk : k0 = k
      · subst hk
        simp [setEntry, lookupEntry, hkk]
      · have hkb : (k0 == k) = false := by simp [hk]
        simp [setEntry, lookupEntry, hkb, ih]

theorem setEntry_same (es : List (String × Value)) (k : String) (c : Value)
    (h : lookupEntry es k = some c) : setEntry es k c = es := by
  induction es with
  | nil => simp [lookupEntry] at h
  | cons kv rest ih =>
      by_cases hk : kv.1 == k
      · have hk' : kv.1 = k := by simpa using hk
        simp only [lookupEntry, hk, if_pos] at h
        cases h
        obtain ⟨k1, v1⟩ := kv
        simp only at hk'
        simp [setEntry, hk, hk']
      · simp only [lookupEntry, hk, if_neg, Bool.false_eq_true, not_false_iff] at h
        simp [setEntry, hk, ih h]

theorem mem_setEntry (es : List (String × Value)) (k : String) (v : Value)
    (kv : String × Value) (h : kv ∈ setEntry es k v) : kv = (k, v) ∨ kv ∈ es := by
  induction es with
  | nil => simpa [setEntry] using h
  | cons kv0 rest ih =>
      by_cases hk : kv0.1 == k
      · simp only [setEntry, hk, if_pos] at h
        rcases List.mem_cons.1 h with h1 | h1
        · exact Or.inl h1
        · exact Or.inr (List.mem_cons_of_mem _ h1)
      · simp only [setEntry, hk, Bool.false_eq_true, if_neg, not_false_iff] at h
        rcases List.mem_cons.1 h with h1 | h1
        · exact Or.inr (List.mem_cons.2 (Or.inl h1))
        · rcases ih h1 with h2 | h2
          · exact Or.inl h2
          · exact Or.inr (List.mem_cons_of_mem _ h2)

theorem lookup_mem (es : List (String × Value)) (k : String) (c : Value)
    (h : lookupEntry es k = some c) : (k, c) ∈ es := by
  induction es with
  | nil => simp [lookupEntry] at h
  | cons kv rest ih =>
      by_cases hk : kv.1 == k
      · have hk' : kv.1 = k := by simpa using hk
        simp only [lookupEntry, hk, if_pos] at h
        cases h
        obtain ⟨k1, v1⟩ := kv
        simp only at hk'
        subst hk'
        exact List.mem_cons_self _ _
      · simp only [lookupEntry, hk, Bool.false_eq_true, if_neg, not_false_iff] at h
        exact List.mem_cons_of_mem _ (ih h)

theorem lookup_append (es es2 : List (String × Value)) (k : String) :
    lookupEntry (es ++ es2) k =
      match lookupEntry es k with
      | some v => some v
      | none => lookupEntry es2 k := by
  induction es with
  | nil => simp [lookupEntry]
  | cons kv rest ih =>
      by_cases hk : kv.1 == k
      · simp [lookupEntry, hk]
      · simp [lookupEntry, hk, ih]

theorem get?_padSet (items : List Value) (i : Nat) (v : Value) :
    (padSet items i v)[i]? = some v := by
  induction items generalizing i with
  | nil =>
      induction i with
      | zero => simp [padSet]
      | succ n ihn => simpa [padSet] using ihn
  | cons x rest ih =>
      cases i with
      | zero => simp [padSet]
      | succ n => simpa [padSet] using ih n

/-! ### Predicate bridges and simple structural lemmas -/

theorem frozenSkelEs_iff (es : List (String × Value)) :
    frozenSkelEs es = true ↔ ∀ kv ∈ es, frozenSkel kv.2 = true := by
  induction es with
  | nil => simp [frozenSkelEs]
  | cons kv rest ih => obtain ⟨k, v⟩ := kv; simp [frozenSkelEs, ih]

theorem skelUnfrozenEs_iff (es : List (String × Value)) :
    skelUnfrozenEs es = true ↔ ∀ kv ∈ es, skelUnfrozen kv.2 = true := by
  induction es with
  | nil => simp [skelUnfrozenEs]
  | cons kv rest ih => obtain ⟨k, v⟩ := kv; simp [skelUnfrozenEs, ih]

theorem mapsOnlyEs_iff (es : List (String × Value)) :
    mapsOnlyEs es = true ↔ ∀ kv ∈ es, mapsOnly kv.2 = true := by
  induction es with
  | nil => simp [mapsOnlyEs]
  | cons kv rest ih => obtain ⟨k, v⟩ := kv; simp [mapsOnlyEs, ih]

theorem noFrozenEs_iff (es : List (String × Value)) :
    noFrozenEs es = true ↔ ∀ kv ∈ es, noFrozenB kv.2 = true := by
  induction es with
  | nil => simp [noFrozenEs]
  | cons kv rest ih => obtain ⟨k, v⟩ := kv; simp [noFrozenEs, ih]

theorem noFrozenArr_iff (items : List Value) :
    noFrozenArr items = true ↔ ∀ v ∈ items, noFrozenB v = true := by
  induction items with
  | nil => simp [noFrozenArr]
  | cons v rest ih => simp [noFrozenArr, ih]

theorem freezeV_nonobj (v : Value) (h : isObjB v = false) : freezeV v = v := by
  cases v <;> simp_all [isObjB, freezeV]

theorem strip_eq_undef_iff (v : Value) : strip v = .undef ↔ v = .undef := by
  cases v <;> simp [strip]

theorem unfreezeEs_map (es : List (String × Value)) :
    unfreezeEs es =
      es.map (fun kv => (kv.1, if isObjB kv.2 then unfreezeV kv.2 else kv.2)) := by
  induction es with
  | nil => rfl
  | cons kv rest ih =>
      obtain ⟨k, v⟩ := kv
      cases v <;> simp [unfreezeEs, isObjB, ih]

theorem freezeVEs_map (es : List (String × Value)) :
    freezeVEs es = es.map (fun kv => (kv.1, freezeV kv.2)) := by
  induction es with
  | nil => rfl
  | cons kv rest ih =>
      obtain ⟨k, v⟩ := kv
      cases v <;> simp [freezeVEs, freezeV, ih]

theorem freezeEs_flat (fz : Bool) (l : List (String × Value))
    (h : ∀ kv ∈ l, isObjB kv.2 = false) : freezeEs fz l = .ok l := by
  induction l with
  | nil => rfl
  | cons kv rest ih =>
      obtain ⟨k, v⟩ := kv
      have hv : isObjB v = false := h (k, v) (List.mem_cons_self _ _)
      have hrest : freezeEs fz rest = .ok rest :=
        ih (fun kv hkv => h kv (List.mem_cons_of_mem _ hkv))
      cases v <;> simp_all [freezeEs, isObjB]

theorem lookup_stripEs (es : List (String × Value)) (k : String) :
    lookupEntry (stripEs es) k = (lookupEntry es k).map strip := by
  induction es with
  | nil => simp [stripEs, lookupEntry]
  | cons kv rest ih =>
      obtain ⟨k0, v⟩ := kv
      by_cases hk : k0 = k
      · subst hk; simp [stripEs, lookupEntry]
      · have hkb : (k0 == k) = false := by simp [hk]
        simp [stripEs, lookupEntry, hkb, ih]

theorem get?_stripArr (items : List Value) (i : Nat) :
    (stripArr items)[i]? = (items[i]?).map strip := by
  induction items generalizing i with
  | nil => simp [stripArr]
  | cons x rest ih =>
      cases i with
      | zero => simp [stripArr]
      | succ n => simpa [stripArr] using ih n

theorem entryAt_strip (es : List (String × Value)) (k : String) :
    entryAt (stripEs es) k = (entryAt es k).map strip := by
  simp only [entryAt, lookup_stripEs]
  cases h : lookupEntry es k with
  | none => simp
  | some v => cases v <;> simp [strip]

theorem childAt_strip (t : Value) (k : String) :
    childAt (strip t) k = (childAt t k).map strip := by
  cases t with
  | obj fz es => simp only [strip, childAt, entryAt_strip]
  | model es => simp only [strip, childAt, entryAt_strip]
  | arr items props =>
      simp only [strip, childAt]
      cases hs : segIndex? k with
      | none => simp [entryAt_strip]
      | some i =>
          simp only [get?_stripArr, hs]
          cases h : items[i]? with
          | none => simp
          | some v => cases v <;> simp [strip]
  | _ => simp [strip, childAt]

theorem getPath_strip (p : List String) (t : Value) :
    getPath (strip t) p = (getPath t p).map strip := by
  induction p generalizing t with
  | nil => simp [getPath]
  | cons k rest ih =>
      simp only [getPath, childAt_strip]
      cases h : childAt t k with
      | none => simp
      | some c => simp [ih c]

/-! ### Monadic inversion helper -/

theorem except_bind_ok {α β : Type} (x : Except Unit α) (f : α → Except Unit β) (b : β) :
    (x >>= f = Except.ok b) ↔ ∃ a, x = Except.ok a ∧ f a = Except.ok b := by
  cases x <;> simp [Bind.bind, Except.bind, Pure.pure, Except.pure]

/-! ### Freeze / unfreeze / strip interaction -/

mutual

theorem strip_freezeV : ∀ (t : Value), strip (freezeV t) = strip t
  | .obj fz es => by simp [freezeV, strip, strip_freezeVEs es]
  | .undef => rfl
  | .vnull => rfl
  | .num _ => rfl
  | .str _ => rfl
  | .arr _ _ => rfl
  | .model _ => rfl

theorem strip_freezeVEs : ∀ (es : List (String × Value)), stripEs (freezeVEs es) = stripEs es
  | [] => rfl
  | (k, Value.obj cfz ces) :: rest => by
      simp [freezeVEs, stripEs, strip_freezeV (Value.obj cfz ces), strip_freezeVEs rest]
  | (k, Value.undef) :: rest => by simp [freezeVEs, stripEs, strip_freezeVEs rest]
  | (k, Value.vnull) :: rest => by simp [freezeVEs, stripEs, strip_freezeVEs rest]
  | (k, Value.num n) :: rest => by simp [freezeVEs, stripEs, strip_freezeVEs rest]
  | (k, Value.str s) :: rest => by simp [freezeVEs, stripEs, strip_freezeVEs rest]
  | (k, Value.arr items aps) :: rest => by simp [freezeVEs, stripEs, strip_freezeVEs rest]
  | (k, Value.model w) :: rest => by simp [freezeVEs, stripEs, strip_freezeVEs rest]

end

mutual

theorem strip_unfreezeV : ∀ (t : Value), strip (unfreezeV t) = strip t
  | .obj fz es => by simp [unfreezeV, strip, strip_unfreezeEs es]
  | .undef => rfl
  | .vnull => rfl
  | .num _ => rfl
  | .str _ => rfl
  | .arr _ _ => rfl
  | .model _ => rfl

theorem strip_unfreezeEs : ∀ (es : List (String × Value)), stripEs (unfreezeEs es) = stripEs es
  | [] => rfl
  | (k, Value.obj cfz ces) :: rest => by
      simp [unfreezeEs, stripEs, strip_unfreezeV (Value.obj cfz ces), strip_unfreezeEs rest]
  | (k, Value.undef) :: rest => by simp [unfreezeEs, stripEs, strip_unfreezeEs rest]
  | (k, Value.vnull) :: rest => by simp [unfreezeEs, stripEs, strip_unfreezeEs rest]
  | (k, Value.num n) :: rest => by simp [unfreezeEs, stripEs, strip_unfreezeEs rest]
  | (k, Value.str s) :: rest => by simp [unfreezeEs, stripEs, strip_unfreezeEs rest]
  | (k, Value.arr items aps) :: rest => by simp [unfreezeEs, stripEs, strip_unfreezeEs rest]
  | (k, Value.model w) :: rest => by simp [unfreezeEs, stripEs, strip_unfreezeEs rest]

end

mutual

theorem unfreeze_freezeV : ∀ (t : Value), unfreezeV (freezeV t) = unfreezeV t
  | .obj fz es => by simp [freezeV, unfreezeV, unfreeze_freezeVEs es]
  | .undef => rfl
  | .vnull => rfl
  | .num _ => rfl
  | .str _ => rfl
  | .arr _ _ => rfl
  | .model _ => rfl

theorem unfreeze_freezeVEs :
    ∀ (es : List (String × Value)), unfreezeEs (freezeVEs es) = unfreezeEs es
  | [] => rfl
  | (k, Value.obj cfz ces) :: rest => by
      simp [freezeVEs, freezeV, unfreezeEs, unfreeze_freezeVEs rest]
      have h := unfreeze_freezeV (Value.obj cfz ces)
      simpa [freezeV] using h
  | (k, Value.undef) :: rest => by simp [freezeVEs, unfreezeEs, unfreeze_freezeVEs rest]
  | (k, Value.vnull) :: rest => by simp [freezeVEs, unfreezeEs, unfreeze_freezeVEs rest]
  | (k, Value.num n) :: rest => by simp [freezeVEs, unfreezeEs, unfreeze_freezeVEs rest]
  | (k, Value.str s) :: rest => by simp [freezeVEs, unfreezeEs, unfreeze_freezeVEs rest]
  | (k, Value.arr items aps) :: rest => by simp [freezeVEs, unfreezeEs, unfreeze_freezeVEs rest]
  | (k, Value.model w) :: rest => by simp [freezeVEs, unfreezeEs, unfreeze_freezeVEs rest]

end

mutual

theorem skelUnfrozen_unfreezeV : ∀ (t : Value), skelUnfrozen (unfreezeV t) = true
  | .obj fz es => by simp [unfreezeV, skelUnfrozen, skelUnfrozen_unfreezeEs es]
  | .undef => rfl
  | .vnull => rfl
  | .num _ => rfl
  | .str _ => rfl
  | .arr _ _ => rfl
  | .model _ => rfl

theorem skelUnfrozen_unfreezeEs :
    ∀ (es : List (String × Value)), skelUnfrozenEs (unfreezeEs es) = true
  | [] => rfl
  | (k, Value.obj cfz ces) :: rest => by
      simp [unfreezeEs, skelUnfrozenEs, skelUnfrozen_unfreezeV (Value.obj cfz ces),
        skelUnfrozen_unfreezeEs rest]
  | (k, Value.undef) :: rest => by
      simp [unfreezeEs, skelUnfrozenEs, skelUnfrozen, skelUnfrozen_unfreezeEs rest]
  | (k, Value.vnull) :: rest => by
      simp [unfreezeEs, skelUnfrozenEs, skelUnfrozen, skelUnfrozen_unfreezeEs rest]
  | (k, Value.num n) :: rest => by
      simp [unfreezeEs, skelUnfrozenEs, skelUnfrozen, skelUnfrozen_unfreezeEs rest]
  | (k, Value.str s) :: rest => by
      simp [unfreezeEs, skelUnfrozenEs, skelUnfrozen, skelUnfrozen_unfreezeEs rest]
  | (k, Value.arr items aps) :: rest => by
      simp [unfreezeEs, skelUnfrozenEs, skelUnfrozen, skelUnfrozen_unfreezeEs rest]
  | (k, Value.model w) :: rest => by
      simp [unfreezeEs, skelUnfrozenEs, skelUnfrozen, skelUnfrozen_unfreezeEs rest]

end


mutual

theorem freezeE_ok_of_skelUnfrozen :
    ∀ (t : Value), skelUnfrozen t = true → freezeE t = .ok (freezeV t)
  | .obj true es => fun h => by simp [skelUnfrozen] at h
  | .obj false es => fun h => by
      simp only [skelUnfrozen] at h
      simp [freezeE, freezeV, freezeEs_ok_of_skelUnfrozen es h, Bind.bind, Except.bind, Pure.pure, Except.pure]
  | .undef => fun _ => rfl
  | .vnull => fun _ => rfl
  | .num _ => fun _ => rfl
  | .str _ => fun _ => rfl
  | .arr _ _ => fun _ => rfl
  | .model _ => fun _ => rfl

theorem freezeEs_ok_of_skelUnfrozen :
    ∀ (l : List (String × Value)), skelUnfrozenEs l = true →
      freezeEs false l = .ok (freezeVEs l)
  | [] => fun _ => rfl
  | (k, Value.obj cfz ces) :: rest => fun h => by
      simp only [skelUnfrozenEs, Bool.and_eq_true] at h
      simp [freezeEs, freezeVEs,
        freezeE_ok_of_skelUnfrozen (Value.obj cfz ces) h.1,
        freezeEs_ok_of_skelUnfrozen rest h.2, Bind.bind, Except.bind, Pure.pure, Except.pure]
  | (k, Value.undef) :: rest => fun h => by
      simp only [skelUnfrozenEs, Bool.and_eq_true] at h
      simp [freezeEs, freezeVEs, freezeEs_ok_of_skelUnfrozen rest h.2, Bind.bind, Except.bind, Pure.pure, Except.pure]
  | (k, Value.vnull) :: rest => fun h => by
      simp only [skelUnfrozenEs, Bool.and_eq_true] at h
      simp [freezeEs, freezeVEs, freezeEs_ok_of_skelUnfrozen rest h.2, Bind.bind, Except.bind, Pure.pure, Except.pure]
  | (k, Value.num n) :: rest => fun h => by
      simp only [skelUnfrozenEs, Bool.and_eq_true] at h
      simp [freezeEs, freezeVEs, freezeEs_ok_of_skelUnfrozen rest h.2, Bind.bind, Except.bind, Pure.pure, Except.pure]
  | (k, Value.str s) :: rest => fun h => by
      simp only [skelUnfrozenEs, Bool.and_eq_true] at h
      simp [freezeEs, freezeVEs, freezeEs_ok_of_skelUnfrozen rest h.2, Bind.bind, Except.bind, Pure.pure, Except.pure]
  | (k, Value.arr items aps) :: rest => fun h => by
      simp only [skelUnfrozenEs, Bool.and_eq_true] at h
      simp [freezeEs, freezeVEs, freezeEs_ok_of_skelUnfrozen rest h.2, Bind.bind, Except.bind, Pure.pure, Except.pure]
  | (k, Value.model w) :: rest => fun h => by
      simp only [skelUnfrozenEs, Bool.and_eq_true] at h
      simp [freezeEs, freezeVEs, freezeEs_ok_of_skelUnfrozen rest h.2, Bind.bind, Except.bind, Pure.pure, Except.pure]

end

mutual

theorem freezeE_frozenSkel : ∀ (t r : Value), freezeE t = .ok r → frozenSkel r = true
  | .obj fz es, r => fun h => by
      simp only [freezeE] at h
      obtain ⟨es', h1, h2⟩ := (except_bind_ok _ _ _).1 h
      have h2' : Value.obj true es' = r := by simpa [Pure.pure, Except.pure] using h2
      subst h2'
      simp [frozenSkel, freezeEs_frozenSkel fz es es' h1]
  | .undef, r => fun h => by
      simp only [freezeE, Pure.pure, Except.pure, Except.ok.injEq] at h
      subst h; rfl
  | .vnull, r => fun h => by
      simp only [freezeE, Pure.pure, Except.pure, Except.ok.injEq] at h
      subst h; rfl
  | .num n, r => fun h => by
      simp only [freezeE, Pure.pure, Except.pure, Except.ok.injEq] at h
      subst h; rfl
  | .str s, r => fun h => by
      simp only [freezeE, Pure.pure, Except.pure, Except.ok.injEq] at h
      subst h; rfl
  | .arr items aps, r => fun h => by
      simp only [freezeE, Pure.pure, Except.pure, Except.ok.injEq] at h
      subst h; rfl
  | .model w, r => fun h => by
      simp only [freezeE, Pure.pure, Except.pure, Except.ok.injEq] at h
      subst h; rfl

theorem freezeEs_frozenSkel : ∀ (fz : Bool) (l l' : List (String × Value)),
    freezeEs fz l = .ok l' → frozenSkelEs l' = true
  | fz, [], l' => fun h => by
      simp only [freezeEs, Pure.pure, Except.pure, Except.ok.injEq] at h
      subst h; rfl
  | fz, (k, Value.obj cfz ces) :: rest, l' => fun h => by
      simp only [freezeEs] at h
      obtain ⟨v', hv, h2⟩ := (except_bind_ok _ _ _).1 h
      cases fz with
      | true =>
          simp [throw, throwThe, MonadExceptOf.throw] at h2
      | false =>
          simp only [Bool.false_eq_true, if_false] at h2
          obtain ⟨rest', hr, h3⟩ := (except_bind_ok _ _ _).1 h2
          have h3' : (k, v') :: rest' = l' := by simpa [Pure.pure, Except.pure] using h3
          subst h3'
          simp [frozenSkelEs, freezeE_frozenSkel _ _ hv,
            freezeEs_frozenSkel false rest rest' hr]
  | fz, (k, Value.undef) :: rest, l' => fun h => by
      simp only [freezeEs] at h
      obtain ⟨rest', hr, h2⟩ := (except_bind_ok _ _ _).1 h
      have h2' : (k, Value.undef) :: rest' = l' := by simpa [Pure.pure, Except.pure] using h2
      subst h2'
      simp [frozenSkelEs, frozenSkel, freezeEs_frozenSkel fz rest rest' hr]
  | fz, (k, Value.vnull) :: rest, l' => fun h => by
      simp only [freezeEs] at h
      obtain ⟨rest', hr, h2⟩ := (except_bind_ok _ _ _).1 h
      have h2' : (k, Value.vnull) :: rest' = l' := by simpa [Pure.pure, Except.pure] using h2
      subst h2'
      simp [frozenSkelEs, frozenSkel, freezeEs_frozenSkel fz rest rest' hr]
  | fz, (k, Value.num n) :: rest, l' => fun h => by
      simp only [freezeEs] at h
      obtain ⟨rest', hr, h2⟩ := (except_bind_ok _ _ _).1 h
      have h2' : (k, Value.num n) :: rest' = l' := by simpa [Pure.pure, Except.pure] using h2
      subst h2'
      simp [frozenSkelEs, frozenSkel, freezeEs_frozenSkel fz rest rest' hr]
  | fz, (k, Value.str s) :: rest, l' => fun h => by
      simp only [freezeEs] at h
      obtain ⟨rest', hr, h2⟩ := (except_bind_ok _ _ _).1 h
      have h2' : (k, Value.str s) :: rest' = l' := by simpa [Pure.pure, Except.pure] using h2
      subst h2'
      simp [frozenSkelEs, frozenSkel, freezeEs_frozenSkel fz rest rest' hr]
  | fz, (k, Value.arr items aps) :: rest, l' => fun h => by
      simp only [freezeEs] at h
      obtain ⟨rest', hr, h2⟩ := (except_bind_ok _ _ _).1 h
      have h2' : (k, Value.arr items aps) :: rest' = l' := by simpa [Pure.pure, Except.pure] using h2
      subst h2'
      simp [frozenSkelEs, frozenSkel, freezeEs_frozenSkel fz rest rest' hr]
  | fz, (k, Value.model w) :: rest, l' => fun h => by
      simp only [freezeEs] at h
      obtain ⟨rest', hr, h2⟩ := (except_bind_ok _ _ _).1 h
      have h2' : (k, Value.model w) :: rest' = l' := by simpa [Pure.pure, Except.pure] using h2
      subst h2'
      simp [frozenSkelEs, frozenSkel, freezeEs_frozenSkel fz rest rest' hr]

end

mutual

theorem freezeE_ok_eq : ∀ (t r : Value), freezeE t = .ok r → r = freezeV t
  | .obj fz es, r => fun h => by
      simp only [freezeE] at h
      obtain ⟨es', h1, h2⟩ := (except_bind_ok _ _ _).1 h
      have h2' : Value.obj true es' = r := by simpa [Pure.pure, Except.pure] using h2
      subst h2'
      simp [freezeV, freezeEs_ok_eq fz es es' h1]
  | .undef, r => fun h => by
      simp only [freezeE, Pure.pure, Except.pure, Except.ok.injEq] at h
      subst h; rfl
  | .vnull, r => fun h => by
      simp only [freezeE, Pure.pure, Except.pure, Except.ok.injEq] at h
      subst h; rfl
  | .num n, r => fun h => by
      simp only [freezeE, Pure.pure, Except.pure, Except.ok.injEq] at h
      subst h; rfl
  | .str s, r => fun h => by
      simp only [freezeE, Pure.pure, Except.pure, Except.ok.injEq] at h
      subst h; rfl
  | .arr items aps, r => fun h => by
      simp only [freezeE, Pure.pure, Except.pure, Except.ok.injEq] at h
      subst h; rfl
  | .model w, r => fun h => by
      simp only [freezeE, Pure.pure, Except.pure, Except.ok.injEq] at h
      subst h; rfl

theorem freezeEs_ok_eq : ∀ (fz : Bool) (l l' : List (String × Value)),
    freezeEs fz l = .ok l' → l' = freezeVEs l
  | fz, [], l' => fun h => by
      simp only [freezeEs, Pure.pure, Except.pure, Except.ok.injEq] at h
      subst h; rfl
  | fz, (k, Value.obj cfz ces) :: rest, l' => fun h => by
      simp only [freezeEs] at h
      obtain ⟨v', hv, h2⟩ := (except_bind_ok _ _ _).1 h
      cases fz with
      | true =>
          simp [throw, throwThe, MonadExceptOf.throw] at h2
      | false =>
          simp only [Bool.false_eq_true, if_false] at h2
          obtain ⟨rest', hr, h3⟩ := (except_bind_ok _ _ _).1 h2
          have h3' : (k, v') :: rest' = l' := by simpa [Pure.pure, Except.pure] using h3
          subst h3'
          simp [freezeVEs, freezeE_ok_eq _ _ hv, freezeEs_ok_eq false rest rest' hr]
  | fz, (k, Value.undef) :: rest, l' => fun h => by
      simp only [freezeEs] at h
      obtain ⟨rest', hr, h2⟩ := (except_bind_ok _ _ _).1 h
      have h2' : (k, Value.undef) :: rest' = l' := by simpa [Pure.pure, Except.pure] using h2
      subst h2'
      simp [freezeVEs, freezeEs_ok_eq fz rest rest' hr]
  | fz, (k, Value.vnull) :: rest, l' => fun h => by
      simp only [freezeEs] at h
      obtain ⟨rest', hr, h2⟩ := (except_bind_ok _ _ _).1 h
      have h2' : (k, Value.vnull) :: rest' = l' := by simpa [Pure.pure, Except.pure] using h2
      subst h2'
      simp [freezeVEs, freezeEs_ok_eq fz rest rest' hr]
  | fz, (k, Value.num n) :: rest, l' => fun h => by
      simp only [freezeEs] at h
      obtain ⟨rest', hr, h2⟩ := (except_bind_ok _ _ _).1 h
      have h2' : (k, Value.num n) :: rest' = l' := by simpa [Pure.pure, Except.pure] using h2
      subst h2'
      simp [freezeVEs, freezeEs_ok_eq fz rest rest' hr]
  | fz, (k, Value.str s) :: rest, l' => fun h => by
      simp only [freezeEs] at h
      obtain ⟨rest', hr, h2⟩ := (except_bind_ok _ _ _).1 h
      have h2' : (k, Value.str s) :: rest' = l' := by simpa [Pure.pure, Except.pure] using h2
      subst h2'
      simp [freezeVEs, freezeEs_ok_eq fz rest rest' hr]
  | fz, (k, Value.arr items aps) :: rest, l' => fun h => by
      simp only [freezeEs] at h
      obtain ⟨rest', hr, h2⟩ := (except_bind_ok _ _ _).1 h
      have h2' : (k, Value.arr items aps) :: rest' = l' := by simpa [Pure.pure, Except.pure] using h2
      subst h2'
      simp [freezeVEs, freezeEs_ok_eq fz rest rest' hr]
  | fz, (k, Value.model w) :: rest, l' => fun h => by
      simp only [freezeEs] at h
      obtain ⟨rest', hr, h2⟩ := (except_bind_ok _ _ _).1 h
      have h2' : (k, Value.model w) :: rest' = l' := by simpa [Pure.pure, Except.pure] using h2
      subst h2'
      simp [freezeVEs, freezeEs_ok_eq fz rest rest' hr]

end

/-! ### setPath structure and the set/get roundtrip -/

theorem setPath_ne_undef (p : List String) (t v : Value) (h : isObjectV t = true) :
    isUndef (setPath t p v) = false := by
  cases t with
  | obj fz es =>
      cases p with
      | nil => rfl
      | cons k rest =>
          simp only [setPath]
          split
          · cases fz <;> simp [assignValue, isUndef]
          · cases fz
            · simp [isUndef]
            · by_cases ho : isObjectV ((lookupEntry es k).getD .undef) = true <;>
                simp [ho, isUndef]
  | arr items props =>
      cases p with
      | nil => rfl
      | cons k rest =>
          simp only [setPath]
          split
          · cases hs : segIndex? k <;> simp [assignValue, hs, isUndef]
          · cases hs : segIndex? k <;> simp [hs, isUndef]
  | model es =>
      cases p with
      | nil => rfl
      | cons k rest =>
          simp only [setPath]
          split
          · simp [assignValue, isUndef]
          · simp [isUndef]
  | undef => simp [isObjectV] at h
  | vnull => simp [isObjectV] at h
  | num n => simp [isObjectV] at h
  | str s => simp [isObjectV] at h

theorem segIndex?_of_isIndexSeg (k : String) (h : isIndexSeg k = true) :
    segIndex? k = some (charsToNat k.data) := by
  simp [segIndex?, h]

theorem childAt_obj_some (fz : Bool) {es : List (String × Value)} {k : String} {w : Value}
    (hl : lookupEntry es k = some w) (hw : isUndef w = false) :
    childAt (.obj fz es) k = some w := by
  cases w <;> simp_all [childAt, entryAt, isUndef]

theorem childAt_model_some {es : List (String × Value)} {k : String} {w : Value}
    (hl : lookupEntry es k = some w) (hw : isUndef w = false) :
    childAt (.model es) k = some w := by
  cases w <;> simp_all [childAt, entryAt, isUndef]

theorem childAt_arr_some (props : List (String × Value)) {items : List Value}
    {k : String} {i : Nat} {w : Value}
    (hs : segIndex? k = some i) (hg : items[i]? = some w) (hw : isUndef w = false) :
    childAt (.arr items props) k = some w := by
  cases w <;> simp_all [childAt, isUndef]

theorem childAt_arr_prop_some (items : List Value) {props : List (String × Value)}
    {k : String} {w : Value}
    (hs : segIndex? k = none) (hl : lookupEntry props k = some w)
    (hw : isUndef w = false) :
    childAt (.arr items props) k = some w := by
  cases w <;> simp_all [childAt, entryAt, isUndef]

theorem freshFor_isObjectV (rest : List String) : isObjectV (freshFor rest) = true := by
  unfold freshFor
  split <;> simp [isObjectV]

theorem setget_roundtrip : ∀ (p : List String) (t v : Value), p ≠ [] →
    setOkB t p = true →
    getPath (setPath t p v) p = (if isUndef v then none else some v)
  | [], _, _ => fun h _ => absurd rfl h
  | [k], t, v => fun _ hok => by
      cases t with
      | obj fz es =>
          cases fz with
          | true => simp [setOkB] at hok
          | false =>
              have hassign : setPath (Value.obj false es) [k] v =
                  Value.obj false (setEntry es k v) := by
                simp [setPath, assignValue]
              rw [hassign]
              have hl := lookup_setEntry_self es k v
              cases v <;> simp [getPath, childAt, entryAt, hl, isUndef]
      | arr items props =>
          cases hs : segIndex? k with
          | some i =>
              have hassign : setPath (Value.arr items props) [k] v =
                  Value.arr (padSet items i v) props := by
                simp [setPath, assignValue, hs]
              rw [hassign]
              have hget := get?_padSet items i v
              cases v <;> simp [getPath, childAt, hs, hget, isUndef]
          | none =>
              have hassign : setPath (Value.arr items props) [k] v =
                  Value.arr items (setEntry props k v) := by
                simp [setPath, assignValue, hs]
              rw [hassign]
              have hl := lookup_setEntry_self props k v
              cases v <;> simp [getPath, childAt, entryAt, hs, hl, isUndef]
      | model es =>
          have hassign : setPath (Value.model es) [k] v =
              Value.model (setEntry es k v) := by
            simp [setPath, assignValue]
          rw [hassign]
          have hl := lookup_setEntry_self es k v
          cases v <;> simp [getPath, childAt, entryAt, hl, isUndef]
      | undef => simp [setOkB] at hok
      | vnull => simp [setOkB] at hok
      | num n => simp [setOkB] at hok
      | str s => simp [setOkB] at hok
  | k :: r :: rs, t, v => fun _ hok => by
      cases t with
      | obj fz es =>
          by_cases ho : isObjectV ((lookupEntry es k).getD .undef) = true
          · have hok2 : setOkB ((lookupEntry es k).getD .undef) (r :: rs) = true := by
              simpa [setOkB, ho] using hok
            have hne := setPath_ne_undef (r :: rs) _ v ho
            cases fz with
            | true =>
                have hstep : setPath (Value.obj true es) (k :: r :: rs) v =
                    Value.obj true (setEntry es k
                      (setPath ((lookupEntry es k).getD .undef) (r :: rs) v)) := by
                  simp [setPath, ho]
                rw [hstep]
                have hchild := childAt_obj_some true
                  (lookup_setEntry_self es k _) hne
                simp only [getPath, hchild]
                exact setget_roundtrip (r :: rs) _ v (by simp) hok2
            | false =>
                have hstep : setPath (Value.obj false es) (k :: r :: rs) v =
                    Value.obj false (setEntry es k
                      (setPath ((lookupEntry es k).getD .undef) (r :: rs) v)) := by
                  simp [setPath, ho]
                rw [hstep]
                have hchild := childAt_obj_some false
                  (lookup_setEntry_self es k _) hne
                simp only [getPath, hchild]
                exact setget_roundtrip (r :: rs) _ v (by simp) hok2
          · cases fz with
            | true => simp [setOkB, ho] at hok
            | false =>
                have hok2 : setOkB (freshFor (r :: rs)) (r :: rs) = true := by
                  simpa [setOkB, ho] using hok
                have hne := setPath_ne_undef (r :: rs) _ v (freshFor_isObjectV (r :: rs))
                have hstep : setPath (Value.obj false es) (k :: r :: rs) v =
                    Value.obj false (setEntry es k
                      (setPath (freshFor (r :: rs)) (r :: rs) v)) := by
                  simp [setPath, ho]
                rw [hstep]
                have hchild := childAt_obj_some false
                  (lookup_setEntry_self es k _) hne
                simp only [getPath, hchild]
                exact setget_roundtrip (r :: rs) _ v (by simp) hok2
      | arr items props =>
          cases hs : segIndex? k with
          | some i =>
              by_cases ho : isObjectV ((items[i]?).getD .undef) = true
              · have hok2 : setOkB ((items[i]?).getD .undef) (r :: rs) = true := by
                  simpa [setOkB, hs, ho] using hok
                have hne := setPath_ne_undef (r :: rs) _ v ho
                have hstep : setPath (Value.arr items props) (k :: r :: rs) v =
                    Value.arr (padSet items i
                      (setPath ((items[i]?).getD .undef) (r :: rs) v)) props := by
                  simp [setPath, hs, ho]
                rw [hstep]
                have hchild := childAt_arr_some props hs
                  (get?_padSet items i _) hne
                simp only [getPath, hchild]
                exact setget_roundtrip (r :: rs) _ v (by simp) hok2
              · have hok2 : setOkB (freshFor (r :: rs)) (r :: rs) = true := by
                  simpa [setOkB, hs, ho] using hok
                have hne := setPath_ne_undef (r :: rs) _ v (freshFor_isObjectV (r :: rs))
                have hstep : setPath (Value.arr items props) (k :: r :: rs) v =
                    Value.arr (padSet items i
                      (setPath (freshFor (r :: rs)) (r :: rs) v)) props := by
                  simp [setPath, hs, ho]
                rw [hstep]
                have hchild := childAt_arr_some props hs
                  (get?_padSet items i _) hne
                simp only [getPath, hchild]
                exact setget_roundtrip (r :: rs) _ v (by simp) hok2
          | none =>
              by_cases ho : isObjectV ((lookupEntry props k).getD .undef) = true
              · have hok2 : setOkB ((lookupEntry props k).getD .undef) (r :: rs) = true := by
                  simpa [setOkB, hs, ho] using hok
                have hne := setPath_ne_undef (r :: rs) _ v ho
                have hstep : setPath (Value.arr items props) (k :: r :: rs) v =
                    Value.arr items (setEntry props k
                      (setPath ((lookupEntry props k).getD .undef) (r :: rs) v)) := by
                  simp [setPath, hs, ho]
                rw [hstep]
                have hchild := childAt_arr_prop_some items hs
                  (lookup_setEntry_self props k _) hne
                simp only [getPath, hchild]
                exact setget_roundtrip (r :: rs) _ v (by simp) hok2
              · have hok2 : setOkB (freshFor (r :: rs)) (r :: rs) = true := by
                  simpa [setOkB, hs, ho] using hok
                have hne := setPath_ne_undef (r :: rs) _ v (freshFor_isObjectV (r :: rs))
                have hstep : setPath (Value.arr items props) (k :: r :: rs) v =
                    Value.arr items (setEntry props k
                      (setPath (freshFor (r :: rs)) (r :: rs) v)) := by
                  simp [setPath, hs, ho]
                rw [hstep]
                have hchild := childAt_arr_prop_some items hs
                  (lookup_setEntry_self props k _) hne
                simp only [getPath, hchild]
                exact setget_roundtrip (r :: rs) _ v (by simp) hok2
      | model es =>
          by_cases ho : isObjectV ((lookupEntry es k).getD .undef) = true
          · have hok2 : setOkB ((lookupEntry es k).getD .undef) (r :: rs) = true := by
              simpa [setOkB, ho] using hok
            have hne := setPath_ne_undef (r :: rs) _ v ho
            have hstep : setPath (Value.model es) (k :: r :: rs) v =
                Value.model (setEntry es k
                  (setPath ((lookupEntry es k).getD .undef) (r :: rs) v)) := by
              simp [setPath, ho]
            rw [hstep]
            have hchild := childAt_model_some (lookup_setEntry_self es k _) hne
            simp only [getPath, hchild]
            exact setget_roundtrip (r :: rs) _ v (by simp) hok2
          · have hok2 : setOkB (freshFor (r :: rs)) (r :: rs) = true := by
              simpa [setOkB, ho] using hok
            have hne := setPath_ne_undef (r :: rs) _ v (freshFor_isObjectV (r :: rs))
            have hstep : setPath (Value.model es) (k :: r :: rs) v =
                Value.model (setEntry es k
                  (setPath (freshFor (r :: rs)) (r :: rs) v)) := by
              simp [setPath, ho]
            rw [hstep]
            have hchild := childAt_model_some (lookup_setEntry_self es k _) hne
            simp only [getPath, hchild]
            exact setget_roundtrip (r :: rs) _ v (by simp) hok2
      | undef => simp [setOkB] at hok
      | vnull => simp [setOkB] at hok
      | num n => simp [setOkB] at hok
      | str s => simp [setOkB] at hok


theorem isObjectV_mapsOnly (c : Value) (h1 : isObjectV c = true) (h2 : mapsOnly c = true) :
    ∃ fz ces, c = .obj fz ces ∧ mapsOnlyEs ces = true := by
  cases c with
  | obj fz ces => exact ⟨fz, ces, rfl, by simpa [mapsOnly] using h2⟩
  | arr items props => simp [mapsOnly] at h2
  | model mes => simp [mapsOnly] at h2
  | undef => simp [isObjectV] at h1
  | vnull => simp [isObjectV] at h1
  | num n => simp [isObjectV] at h1
  | str s => simp [isObjectV] at h1

theorem setPath_frozenSkel : ∀ (p : List String) (t v : Value),
    frozenSkel t = true → frozenSkel (setPath t p v) = true
  | [], t, v => fun h => h
  | [k], t, v => fun h => by
      cases t with
      | obj fz es =>
          cases fz with
          | true => simpa [setPath, assignValue] using h
          | false => simp [frozenSkel] at h
      | arr items props =>
          cases hs : segIndex? k <;> simp [setPath, assignValue, hs, frozenSkel]
      | model es => simp [setPath, assignValue, frozenSkel]
      | undef => simpa [setPath, assignValue] using h
      | vnull => simpa [setPath, assignValue] using h
      | num n => simpa [setPath, assignValue] using h
      | str s => simpa [setPath, assignValue] using h
  | k :: r :: rs, t, v => fun h => by
      cases t with
      | obj fz es =>
          cases fz with
          | false => simp [frozenSkel] at h
          | true =>
              have hes : frozenSkelEs es = true := by simpa [frozenSkel] using h
              by_cases ho : isObjectV ((lookupEntry es k).getD .undef) = true
              · cases hl : lookupEntry es k with
                | none => rw [hl] at ho; simp [isObjectV] at ho
                | some c =>
                    rw [hl] at ho
                    simp only [Option.getD] at ho
                    have hc : frozenSkel c = true :=
                      (frozenSkelEs_iff es).1 hes _ (lookup_mem es k c hl)
                    have hrec := setPath_frozenSkel (r :: rs) c v hc
                    have hstep : setPath (Value.obj true es) (k :: r :: rs) v =
                        Value.obj true (setEntry es k (setPath c (r :: rs) v)) := by
                      simp [setPath, hl, ho]
                    rw [hstep]
                    simp only [frozenSkel, Bool.true_and]
                    rw [frozenSkelEs_iff]
                    intro kv hkv
                    rcases mem_setEntry _ _ _ _ hkv with rfl | hin
                    · exact hrec
                    · exact (frozenSkelEs_iff es).1 hes _ hin
              · have hstep : setPath (Value.obj true es) (k :: r :: rs) v =
                    Value.obj true es := by
                  simp [setPath, ho]
                rw [hstep]; exact h
      | arr items props =>
          cases hs : segIndex? k <;> simp [setPath, hs, frozenSkel]
      | model es => simp [setPath, frozenSkel]
      | undef => simpa [setPath] using h
      | vnull => simpa [setPath] using h
      | num n => simpa [setPath] using h
      | str s => simpa [setPath] using h

theorem freshFor_skelUnfrozen (rest : List String) :
    skelUnfrozen (freshFor rest) = true := by
  unfold freshFor
  split <;> simp [skelUnfrozen, skelUnfrozenEs]

theorem setPath_skelUnfrozen : ∀ (p : List String) (t v : Value),
    skelUnfrozen t = true → skelUnfrozen v = true →
    skelUnfrozen (setPath t p v) = true
  | [], t, v => fun h _ => h
  | [k], t, v => fun h hv => by
      cases t with
      | obj fz es =>
          cases fz with
          | true => simp [skelUnfrozen] at h
          | false =>
              have hes : skelUnfrozenEs es = true := by simpa [skelUnfrozen] using h
              have hstep : setPath (Value.obj false es) [k] v =
                  Value.obj false (setEntry es k v) := by
                simp [setPath, assignValue]
              rw [hstep]
              simp only [skelUnfrozen]
              rw [skelUnfrozenEs_iff]
              intro kv hkv
              rcases mem_setEntry _ _ _ _ hkv with rfl | hin
              · exact hv
              · exact (skelUnfrozenEs_iff es).1 hes _ hin
      | arr items props =>
          cases hs : segIndex? k <;> simp [setPath, assignValue, hs, skelUnfrozen]
      | model es => simp [setPath, assignValue, skelUnfrozen]
      | undef => simpa [setPath, assignValue] using h
      | vnull => simpa [setPath, assignValue] using h
      | num n => simpa [setPath, assignValue] using h
      | str s => simpa [setPath, assignValue] using h
  | k :: r :: rs, t, v => fun h hv => by
      cases t with
      | obj fz es =>
          cases fz with
          | true => simp [skelUnfrozen] at h
          | false =>
              have hes : skelUnfrozenEs es = true := by simpa [skelUnfrozen] using h
              by_cases ho : isObjectV ((lookupEntry es k).getD .undef) = true
              · cases hl : lookupEntry es k with
                | none => rw [hl] at ho; simp [isObjectV] at ho
                | some c =>
                    rw [hl] at ho
                    simp only [Option.getD] at ho
                    have hc : skelUnfrozen c = true :=
                      (skelUnfrozenEs_iff es).1 hes _ (lookup_mem es k c hl)
                    have hrec := setPath_skelUnfrozen (r :: rs) c v hc hv
                    have hstep : setPath (Value.obj false es) (k :: r :: rs) v =
                        Value.obj false (setEntry es k (setPath c (r :: rs) v)) := by
                      simp [setPath, hl, ho]
                    rw [hstep]
                    simp only [skelUnfrozen]
                    rw [skelUnfrozenEs_iff]
                    intro kv hkv
                    rcases mem_setEntry _ _ _ _ hkv with rfl | hin
                    · exact hrec
                    · exact (skelUnfrozenEs_iff es).1 hes _ hin
              · have hrec := setPath_skelUnfrozen (r :: rs) (freshFor (r :: rs)) v
                  (freshFor_skelUnfrozen (r :: rs)) hv
                have hstep : setPath (Value.obj false es) (k :: r :: rs) v =
                    Value.obj false (setEntry es k
                      (setPath (freshFor (r :: rs)) (r :: rs) v)) := by
                  simp [setPath, ho]
                rw [hstep]
                simp only [skelUnfrozen]
                rw [skelUnfrozenEs_iff]
                intro kv hkv
                rcases mem_setEntry _ _ _ _ hkv with rfl | hin
                · exact hrec
                · exact (skelUnfrozenEs_iff es).1 hes _ hin
      | arr items props =>
          cases hs : segIndex? k <;> simp [setPath, hs, skelUnfrozen]
      | model es => simp [setPath, skelUnfrozen]
      | undef => simpa [setPath] using h
      | vnull => simpa [setPath] using h
      | num n => simpa [setPath] using h
      | str s => simpa [setPath] using h

theorem setPath_frozen_mapsOnly_id : ∀ (p : List String) (t v : Value),
    frozenSkel t = true → mapsOnly t = true → setPath t p v = t
  | [], t, v => fun _ _ => rfl
  | [k], t, v => fun h hm => by
      cases t with
      | obj fz es =>
          cases fz with
          | true => simp [setPath, assignValue]
          | false => simp [frozenSkel] at h
      | arr items props => simp [mapsOnly] at hm
      | model mes => simp [mapsOnly] at hm
      | undef => simp [setPath, assignValue]
      | vnull => simp [setPath, assignValue]
      | num n => simp [setPath, assignValue]
      | str s => simp [setPath, assignValue]
  | k :: r :: rs, t, v => fun h hm => by
      cases t with
      | obj fz es =>
          cases fz with
          | false => simp [frozenSkel] at h
          | true =>
              have hes : frozenSkelEs es = true := by simpa [frozenSkel] using h
              have hmes : mapsOnlyEs es = true := by simpa [mapsOnly] using hm
              by_cases ho : isObjectV ((lookupEntry es k).getD .undef) = true
              · cases hl : lookupEntry es k with
                | none => rw [hl] at ho; simp [isObjectV] at ho
                | some c =>
                    rw [hl] at ho
                    simp only [Option.getD] at ho
                    have hc : frozenSkel c = true :=
                      (frozenSkelEs_iff es).1 hes _ (lookup_mem es k c hl)
                    have hmc : mapsOnly c = true :=
                      (mapsOnlyEs_iff es).1 hmes _ (lookup_mem es k c hl)
                    have hrec := setPath_frozen_mapsOnly_id (r :: rs) c v hc hmc
                    have hstep : setPath (Value.obj true es) (k :: r :: rs) v =
                        Value.obj true (setEntry es k (setPath c (r :: rs) v)) := by
                      simp [setPath, hl, ho]
                    rw [hstep, hrec, setEntry_same es k c hl]
              · simp [setPath, ho]
      | arr items props => simp [mapsOnly] at hm
      | model mes => simp [mapsOnly] at hm
      | undef => simp [setPath]
      | vnull => simp [setPath]
      | num n => simp [setPath]
      | str s => simp [setPath]

theorem unsetPath_frozen_mapsOnly_id : ∀ (p : List String) (t : Value),
    frozenSkel t = true → mapsOnly t = true → unsetPath t p = t
  | [], t => fun _ _ => rfl
  | [k], t => fun h hm => by
      cases t with
      | obj fz es =>
          cases fz with
          | true => simp [unsetPath, deleteKey]
          | false => simp [frozenSkel] at h
      | arr items props => simp [mapsOnly] at hm
      | model mes => simp [mapsOnly] at hm
      | undef => simp [unsetPath, deleteKey]
      | vnull => simp [unsetPath, deleteKey]
      | num n => simp [unsetPath, deleteKey]
      | str s => simp [unsetPath, deleteKey]
  | k :: r :: rs, t => fun h hm => by
      cases t with
      | obj fz es =>
          cases fz with
          | false => simp [frozenSkel] at h
          | true =>
              have hes : frozenSkelEs es = true := by simpa [frozenSkel] using h
              have hmes : mapsOnlyEs es = true := by simpa [mapsOnly] using hm
              cases hl : lookupEntry es k with
              | none => simp [unsetPath, hl]
              | some c =>
                  have hc : frozenSkel c = true :=
                    (frozenSkelEs_iff es).1 hes _ (lookup_mem es k c hl)
                  have hmc : mapsOnly c = true :=
                    (mapsOnlyEs_iff es).1 hmes _ (lookup_mem es k c hl)
                  have hrec := unsetPath_frozen_mapsOnly_id (r :: rs) c hc hmc
                  have hstep : unsetPath (Value.obj true es) (k :: r :: rs) =
                      Value.obj true (setEntry es k (unsetPath c (r :: rs))) := by
                    simp [unsetPath, hl]
                  rw [hstep, hrec, setEntry_same es k c hl]
      | arr items props => simp [mapsOnly] at hm
      | model mes => simp [mapsOnly] at hm
      | undef => simp [unsetPath]
      | vnull => simp [unsetPath]
      | num n => simp [unsetPath]
      | str s => simp [unsetPath]

theorem unsetPath_frozenSkel : ∀ (p : List String) (t : Value),
    frozenSkel t = true → frozenSkel (unsetPath t p) = true
  | [], t => fun h => h
  | [k], t => fun h => by
      cases t with
      | obj fz es =>
          cases fz with
          | true => simpa [unsetPath, deleteKey] using h
          | false => simp [frozenSkel] at h
      | arr items props =>
          cases hs : segIndex? k with
          | none => simp [unsetPath, deleteKey, hs, frozenSkel]
          | some i =>
              by_cases hlen : i < items.length <;>
                simp [unsetPath, deleteKey, hs, hlen, frozenSkel]
      | model es => simp [unsetPath, deleteKey, frozenSkel]
      | undef => simpa [unsetPath, deleteKey] using h
      | vnull => simpa [unsetPath, deleteKey] using h
      | num n => simpa [unsetPath, deleteKey] using h
      | str s => simpa [unsetPath, deleteKey] using h
  | k :: r :: rs, t => fun h => by
      cases t with
      | obj fz es =>
          cases fz with
          | false => simp [frozenSkel] at h
          | true =>
              have hes : frozenSkelEs es = true := by simpa [frozenSkel] using h
              cases hl : lookupEntry es k with
              | none => simpa [unsetPath, hl, frozenSkel] using hes
              | some c =>
                  have hc : frozenSkel c = true :=
                    (frozenSkelEs_iff es).1 hes _ (lookup_mem es k c hl)
                  have hrec := unsetPath_frozenSkel (r :: rs) c hc
                  have hstep : unsetPath (Value.obj true es) (k :: r :: rs) =
                      Value.obj true (setEntry es k (unsetPath c (r :: rs))) := by
                    simp [unsetPath, hl]
                  rw [hstep]
                  simp only [frozenSkel, Bool.true_and]
                  rw [frozenSkelEs_iff]
                  intro kv hkv
                  rcases mem_setEntry _ _ _ _ hkv with rfl | hin
                  · exact hrec
                  · exact (frozenSkelEs_iff es).1 hes _ hin
      | arr items props =>
          cases hs : segIndex? k with
          | none =>
              cases hl : lookupEntry props k <;> simp [unsetPath, hs, hl, frozenSkel]
          | some i =>
              cases hg : items[i]? <;> simp [unsetPath, hs, hg, frozenSkel]
      | model es =>
          cases hl : lookupEntry es k <;> simp [unsetPath, hl, frozenSkel]
      | undef => simpa [unsetPath] using h
      | vnull => simpa [unsetPath] using h
      | num n => simpa [unsetPath] using h
      | str s => simpa [unsetPath] using h

/-! ### The frozen skeleton is untouched by writes -/

theorem skelOfEs_setEntry_same (es : List (String × Value)) (k : String) (c w : Value)
    (hl : lookupEntry es k = some c) (hw : skelOf w = skelOf c) :
    skelOfEs (setEntry es k w) = skelOfEs es := by
  induction es with
  | nil => simp [lookupEntry] at hl
  | cons kv rest ih =>
      obtain ⟨k0, v0⟩ := kv
      by_cases hk : k0 = k
      · subst hk
        simp only [lookupEntry, beq_self_eq_true, if_pos, Option.some.injEq] at hl
        subst hl
        simp [setEntry, skelOfEs, hw]
      · have hkb : (k0 == k) = false := by simp [hk]
        simp only [lookupEntry, hkb, Bool.false_eq_true, if_neg, not_false_iff] at hl
        simp [setEntry, hkb, skelOfEs, ih hl]

theorem setPath_skelOf : ∀ (p : List String) (t v : Value),
    frozenSkel t = true → skelOf (setPath t p v) = skelOf t
  | [], t, v => fun _ => rfl
  | [k], t, v => fun h => by
      cases t with
      | obj fz es =>
          cases fz with
          | true => simp [setPath, assignValue]
          | false => simp [frozenSkel] at h
      | arr items props =>
          cases hs : segIndex? k <;> simp [setPath, assignValue, hs, skelOf]
      | model es => simp [setPath, assignValue, skelOf]
      | undef => simp [setPath, assignValue]
      | vnull => simp [setPath, assignValue]
      | num n => simp [setPath, assignValue]
      | str s => simp [setPath, assignValue]
  | k :: r :: rs, t, v => fun h => by
      cases t with
      | obj fz es =>
          cases fz with
          | false => simp [frozenSkel] at h
          | true =>
              have hes : frozenSkelEs es = true := by simpa [frozenSkel] using h
              by_cases ho : isObjectV ((lookupEntry es k).getD .undef) = true
              · cases hl : lookupEntry es k with
                | none => rw [hl] at ho; simp [isObjectV] at ho
                | some c =>
                    rw [hl] at ho
                    simp only [Option.getD] at ho
                    have hc : frozenSkel c = true :=
                      (frozenSkelEs_iff es).1 hes _ (lookup_mem es k c hl)
                    have hrec := setPath_skelOf (r :: rs) c v hc
                    have hstep : setPath (Value.obj true es) (k :: r :: rs) v =
                        Value.obj true (setEntry es k (setPath c (r :: rs) v)) := by
                      simp [setPath, hl, ho]
                    rw [hstep]
                    simp only [skelOf]
                    rw [skelOfEs_setEntry_same es k c _ hl hrec]
              · simp [setPath, ho]
      | arr items props =>
          cases hs : segIndex? k <;> simp [setPath, hs, skelOf]
      | model es => simp [setPath, skelOf]
      | undef => simp [setPath]
      | vnull => simp [setPath]
      | num n => simp [setPath]
      | str s => simp [setPath]

theorem unsetPath_skelOf : ∀ (p : List String) (t : Value),
    frozenSkel t = true → skelOf (unsetPath t p) = skelOf t
  | [], t => fun _ => rfl
  | [k], t => fun h => by
      cases t with
      | obj fz es =>
          cases fz with
          | true => simp [unsetPath, deleteKey]
          | false => simp [frozenSkel] at h
      | arr items props =>
          cases hs : segIndex? k with
          | none => simp [unsetPath, deleteKey, hs, skelOf]
          | some i =>
              by_cases hlen : i < items.length <;>
                simp [unsetPath, deleteKey, hs, hlen, skelOf]
      | model es => simp [unsetPath, deleteKey, skelOf]
      | undef => simp [unsetPath, deleteKey]
      | vnull => simp [unsetPath, deleteKey]
      | num n => simp [unsetPath, deleteKey]
      | str s => simp [unsetPath, deleteKey]
  | k :: r :: rs, t => fun h => by
      cases t with
      | obj fz es =>
          cases fz with
          | false => simp [frozenSkel] at h
          | true =>
              have hes : frozenSkelEs es = true := by simpa [frozenSkel] using h
              cases hl : lookupEntry es k with
              | none => simp [unsetPath, hl]
              | some c =>
                  have hc : frozenSkel c = true :=
                    (frozenSkelEs_iff es).1 hes _ (lookup_mem es k c hl)
                  have hrec := unsetPath_skelOf (r :: rs) c hc
                  have hstep : unsetPath (Value.obj true es) (k :: r :: rs) =
                      Value.obj true (setEntry es k (unsetPath c (r :: rs))) := by
                    simp [unsetPath, hl]
                  rw [hstep]
                  simp only [skelOf]
                  rw [skelOfEs_setEntry_same es k c _ hl hrec]
      | arr items props =>
          cases hs : segIndex? k with
          | none =>
              cases hl : lookupEntry props k <;> simp [unsetPath, hs, hl, skelOf]
          | some i =>
              cases hg : items[i]? <;> simp [unsetPath, hs, hg, skelOf]
      | model es =>
          cases hl : lookupEntry es k <;> simp [unsetPath, hl, skelOf]
      | undef => simp [unsetPath]
      | vnull => simp [unsetPath]
      | num n => simp [unsetPath]
      | str s => simp [unsetPath]

/-! ### Every write path succeeds on never-frozen data -/

theorem noFrozen_lookup (es : List (String × Value)) (k : String) (c : Value)
    (h : noFrozenEs es = true) (hl : lookupEntry es k = some c) : noFrozenB c = true :=
  (noFrozenEs_iff es).1 h _ (lookup_mem es k c hl)

theorem noFrozen_item (items : List Value) (i : Nat) (c : Value)
    (h : noFrozenArr items = true) (hg : items[i]? = some c) : noFrozenB c = true := by
  have hmem : c ∈ items := by
    have h2 : items.get? i = some c := by simpa [List.get?_eq_getElem?] using hg
    exact List.get?_mem h2
  exact (noFrozenArr_iff items).1 h _ hmem

theorem freshFor_noFrozen (rest : List String) : noFrozenB (freshFor rest) = true := by
  unfold freshFor
  split <;> simp [noFrozenB, noFrozenEs, noFrozenArr]

theorem setOk_of_noFrozen : ∀ (p : List String) (t : Value),
    noFrozenB t = true → isObjectV t = true → setOkB t p = true
  | [], t => fun _ _ => rfl
  | [k], t => fun hnf ho => by
      cases t with
      | obj fz es =>
          cases fz with
          | true => simp [noFrozenB] at hnf
          | false => simp [setOkB]
      | arr items props => simp [setOkB]
      | model es => simp [setOkB]
      | undef => simp [isObjectV] at ho
      | vnull => simp [isObjectV] at ho
      | num n => simp [isObjectV] at ho
      | str s => simp [isObjectV] at ho
  | k :: r :: rs, t => fun hnf ho => by
      cases t with
      | obj fz es =>
          cases fz with
          | true => simp [noFrozenB] at hnf
          | false =>
              have hes : noFrozenEs es = true := by simpa [noFrozenB] using hnf
              by_cases hc : isObjectV ((lookupEntry es k).getD .undef) = true
              · cases hl : lookupEntry es k with
                | none => rw [hl] at hc; simp [isObjectV] at hc
                | some c =>
                    rw [hl] at hc
                    simp only [Option.getD] at hc
                    have hrec := setOk_of_noFrozen (r :: rs) c
                      (noFrozen_lookup es k c hes hl) hc
                    simpa [setOkB, hl, hc] using hrec
              · have hrec := setOk_of_noFrozen (r :: rs) (freshFor (r :: rs))
                  (freshFor_noFrozen _) (freshFor_isObjectV _)
                simpa [setOkB, hc] using hrec
      | arr items props =>
          have hitems : noFrozenArr items = true := by
            simp only [noFrozenB, Bool.and_eq_true] at hnf
            exact hnf.1
          have hprops : noFrozenEs props = true := by
            simp only [noFrozenB, Bool.and_eq_true] at hnf
            exact hnf.2
          cases hs : segIndex? k with
          | some i =>
              by_cases hc : isObjectV ((items[i]?).getD .undef) = true
              · cases hg : items[i]? with
                | none => rw [hg] at hc; simp [isObjectV] at hc
                | some c =>
                    rw [hg] at hc
                    simp only [Option.getD] at hc
                    have hrec := setOk_of_noFrozen (r :: rs) c
                      (noFrozen_item items i c hitems hg) hc
                    simpa [setOkB, hs, hg, hc] using hrec
              · have hrec := setOk_of_noFrozen (r :: rs) (freshFor (r :: rs))
                  (freshFor_noFrozen _) (freshFor_isObjectV _)
                simpa [setOkB, hs, hc] using hrec
          | none =>
              by_cases hc : isObjectV ((lookupEntry props k).getD .undef) = true
              · cases hl : lookupEntry props k with
                | none => rw [hl] at hc; simp [isObjectV] at hc
                | some c =>
                    rw [hl] at hc
                    simp only [Option.getD] at hc
                    have hrec := setOk_of_noFrozen (r :: rs) c
                      (noFrozen_lookup props k c hprops hl) hc
                    simpa [setOkB, hs, hl, hc] using hrec
              · have hrec := setOk_of_noFrozen (r :: rs) (freshFor (r :: rs))
                  (freshFor_noFrozen _) (freshFor_isObjectV _)
                simpa [setOkB, hs, hc] using hrec
      | model es =>
          have hes : noFrozenEs es = true := by simpa [noFrozenB] using hnf
          by_cases hc : isObjectV ((lookupEntry es k).getD .undef) = true
          · cases hl : lookupEntry es k with
            | none => rw [hl] at hc; simp [isObjectV] at hc
            | some c =>
                rw [hl] at hc
                simp only [Option.getD] at hc
                have hrec := setOk_of_noFrozen (r :: rs) c
                  (noFrozen_lookup es k c hes hl) hc
                simpa [setOkB, hl, hc] using hrec
          · have hrec := setOk_of_noFrozen (r :: rs) (freshFor (r :: rs))
              (freshFor_noFrozen _) (freshFor_isObjectV _)
            simpa [setOkB, hc] using hrec
      | undef => simp [isObjectV] at ho
      | vnull => simp [isObjectV] at ho
      | num n => simp [isObjectV] at ho
      | str s => simp [isObjectV] at ho


/-! ### Bag-level helper lemmas -/

theorem splitDots_ne_nil : ∀ (cs acc : List Char), splitDots cs acc ≠ []
  | [], acc => by simp [splitDots]
  | c :: rest, acc => by
      by_cases h : c == '.'
      · simp [splitDots, h]
      · simpa [splitDots, h] using splitDots_ne_nil rest (c :: acc)

theorem splitKey_ne_nil (k : String) : splitKey k ≠ [] := by
  unfold splitKey
  split
  · exact splitDots_ne_nil k.data []
  · simp

theorem splitKey_nodot (k : String) (h : k.data.contains '.' = false) :
    splitKey k = [k] := by
  simp only [splitKey, h, Bool.false_eq_true, if_false]

theorem foldl_set_gstate : ∀ (attrs : List (String × Value)) (b : Bag),
    (attrs.foldl (fun acc kv => acc.set kv.1 kv.2) b).gstate = b.gstate
  | [], b => rfl
  | kv :: rest, b => by
      simpa [List.foldl] using foldl_set_gstate rest (b.set kv.1 kv.2)

theorem reset_false_ok (b : Bag) (attrs : List (String × Value)) :
    b.reset attrs false =
      .ok (attrs.foldl (fun acc kv => acc.set kv.1 kv.2)
        { b with attributes := Value.obj false [] }) := rfl

theorem guard_ok_elim (b b' : Bag) (h : b.guard = .ok b') :
    b' = { b with attributes := freezeV b.attributes, gstate := some true } ∧
    frozenSkel b'.attributes = true := by
  simp only [Bag.guard] at h
  obtain ⟨fr, hfr, h2⟩ := (except_bind_ok _ _ _).1 h
  have h2' : { b with attributes := fr, gstate := some true } = b' := by
    simpa [Pure.pure, Except.pure] using h2
  subst h2'
  refine ⟨?_, ?_⟩
  · simp [freezeE_ok_eq _ _ hfr]
  · simpa using freezeE_frozenSkel _ _ hfr

theorem mutate_guarded (b : Bag) (k : String) (v : Value) (h : b.gstate = some true) :
    b.mutate k v = (b.unguard.set k v).guard := by
  simp [Bag.mutate, Bag.isGuarded, h]

theorem mutate_unguarded (b : Bag) (k : String) (v : Value) (h : ¬ b.gstate = some true) :
    b.mutate k v = .ok (b.set k v) := by
  simp [Bag.mutate, Bag.isGuarded, h, Pure.pure, Except.pure]

theorem put_gstate (b : Bag) (src : List (String × Value)) :
    (b.put src).gstate = b.gstate := by
  cases hA : b.attributes with
  | obj fz es => cases fz <;> simp [Bag.put, hA]
  | arr items props => simp [Bag.put, hA]
  | model mes => simp [Bag.put, hA]
  | undef => simp [Bag.put, hA]
  | vnull => simp [Bag.put, hA]
  | num n => simp [Bag.put, hA]
  | str st => simp [Bag.put, hA]

theorem put_attributes_of_frozenSkel (b : Bag) (src : List (String × Value))
    (h : frozenSkel b.attributes = true) : (b.put src).attributes = b.attributes := by
  cases hA : b.attributes with
  | obj fz es =>
      cases fz with
      | true => simp [Bag.put, hA]
      | false => rw [hA] at h; simp [frozenSkel] at h
  | arr items props => simp [Bag.put, hA]
  | model mes => simp [Bag.put, hA]
  | undef => simp [Bag.put, hA]
  | vnull => simp [Bag.put, hA]
  | num n => simp [Bag.put, hA]
  | str st => simp [Bag.put, hA]

theorem defaults_gstate (b : Bag) (src : List (String × Value)) :
    (b.defaults src).gstate = b.gstate := by
  cases hA : b.attributes with
  | obj fz es => cases fz <;> simp [Bag.defaults, hA]
  | arr items props => simp [Bag.defaults, hA]
  | model mes => simp [Bag.defaults, hA]
  | undef => simp [Bag.defaults, hA]
  | vnull => simp [Bag.defaults, hA]
  | num n => simp [Bag.defaults, hA]
  | str st => simp [Bag.defaults, hA]

theorem defaults_attributes_of_frozenSkel (b : Bag) (src : List (String × Value))
    (h : frozenSkel b.attributes = true) : (b.defaults src).attributes = b.attributes := by
  cases hA : b.attributes with
  | obj fz es =>
      cases fz with
      | true => simp [Bag.defaults, hA]
      | false => rw [hA] at h; simp [frozenSkel] at h
  | arr items props => simp [Bag.defaults, hA]
  | model mes => simp [Bag.defaults, hA]
  | undef => simp [Bag.defaults, hA]
  | vnull => simp [Bag.defaults, hA]
  | num n => simp [Bag.defaults, hA]
  | str st => simp [Bag.defaults, hA]

theorem isObjB_unfreezeV (t : Value) (h : isObjB t = true) :
    isObjB (unfreezeV t) = true := by
  cases t <;> simp_all [isObjB, unfreezeV]

theorem isObjectV_of_isObjB (t : Value) (h : isObjB t = true) :
    isObjectV t = true := by
  cases t <;> simp_all [isObjB, isObjectV]

/-! ### Claim C1 -/

/-- C1, as stated, is false: after guard(), a direct write does not raise
anything.  The lodash helpers run in non-strict mode, so set on the frozen
plain attributes returns normally and changes nothing (get still yields
the old value); reset succeeds outright, installing a fresh attributes
tree while the guarded flag stays set; and a write whose path lands inside
a non-frozen object such as an array element even goes through and is
visible to get. -/
theorem c1_counterexample :
    ((Bag.mk' [("a", Value.num 1)] true none).map (fun b =>
      ((b.set "a" (Value.num 2)).get "a" Value.vnull, b.get "a" Value.vnull))
      = .ok (Value.num 1, Value.num 1)) ∧
    (((Bag.mk' [("a", Value.num 1)] true none).bind (fun b =>
        b.reset [("b", Value.num 2)] false)).map (fun b2 =>
          (b2.get "b" Value.vnull, b2.isGuarded)) = .ok (Value.num 2, some true)) ∧
    ((Bag.mk' [("xs", Value.arr [Value.num 1] [])] true none).map (fun b =>
      (b.set "xs.0" (Value.num 2)).get "xs.0" Value.vnull)
      = .ok (Value.num 2)) :=
  ⟨rfl, rfl, rfl⟩

/-- C1 (amended): on a guarded container whose plain-data skeleton is
frozen, no direct write raises: set and forget leave the frozen
plain-mapping skeleton exactly as it was, and put leaves the attributes
exactly unchanged.  When the whole attributes tree consists of plain
mappings only, set and forget are exact no-ops and get is unaffected.
But a set whose path reaches a mutable location — an array element or a
model-instance property below the frozen mappings, or a fresh chain
lodash creates on an unfrozen spot — goes through and get reflects it.
reset always succeeds, replacing the whole attributes object while the
guarded flag stays set. -/
theorem c1_amended (b : Bag) (k kf kw : String) (v w : Value)
    (src attrs2 : List (String × Value)) (fb : Value)
    (hg : b.gstate = some true)
    (h2 : frozenSkel b.attributes = true) :
    skelOf (b.set k v).attributes = skelOf b.attributes ∧
    skelOf (b.forget kf).attributes = skelOf b.attributes ∧
    (b.put src).attributes = b.attributes ∧
    (mapsOnly b.attributes = true →
      (b.set k v).attributes = b.attributes ∧
      (b.forget kf).attributes = b.attributes ∧
      ∀ k2, (b.set k v).get k2 fb = b.get k2 fb) ∧
    (setOkB b.attributes (splitKey kw) = true →
      (b.set kw w).get kw fb =
        (if isUndef (b.convertToModel w) then fb else b.convertToModel w)) ∧
    (∃ b2, b.reset attrs2 false = .ok b2 ∧ b2.gstate = some true) := by
  refine ⟨?_, ?_, ?_, ?_, ?_, ?_⟩
  · exact setPath_skelOf _ _ _ h2
  · exact unsetPath_skelOf _ _ h2
  · cases hA : b.attributes with
    | obj fz es =>
        cases fz with
        | true => simp [Bag.put, hA]
        | false => rw [hA] at h2; simp [frozenSkel] at h2
    | arr items props => simp [Bag.put, hA]
    | model mes => simp [Bag.put, hA]
    | undef => simp [Bag.put, hA]
    | vnull => simp [Bag.put, hA]
    | num n => simp [Bag.put, hA]
    | str s => simp [Bag.put, hA]
  · intro hmo
    have hset : (b.set k v).attributes = b.attributes := by
      simp [Bag.set, setPath_frozen_mapsOnly_id _ _ _ h2 hmo]
    refine ⟨hset, ?_, ?_⟩
    · simp [Bag.forget, unsetPath_frozen_mapsOnly_id _ _ h2 hmo]
    · intro k2
      simp [Bag.get, hset]
  · intro hok
    have hrt := setget_roundtrip (splitKey kw) b.attributes (b.convertToModel w)
      (splitKey_ne_nil kw) hok
    show (getPath (setPath b.attributes (splitKey kw) (b.convertToModel w))
      (splitKey kw)).getD fb = _
    rw [hrt]
    cases hv : isUndef (b.convertToModel w) <;> simp [hv]
  · refine ⟨_, reset_false_ok b attrs2, ?_⟩
    rw [foldl_set_gstate]
    exact hg

/-- Witness for c1_amended: a guarded container holding an array takes a
write through the array element, visible to get. -/
theorem c1_amended_witness :
    (Bag.set ⟨Value.obj true [("a", Value.num 1), ("xs", Value.arr [Value.num 1] [])],
        none, some true⟩ "xs.0" (Value.num 2)).get "xs.0" Value.vnull
      = Value.num 2 := by
  have h := (c1_amended
    ⟨Value.obj true [("a", Value.num 1), ("xs", Value.arr [Value.num 1] [])],
      none, some true⟩ "a" "a" "xs.0" (Value.num 1) (Value.num 2) [] [] Value.vnull
    rfl rfl).2.2.2.2.1 rfl
  simpa [Bag.convertToModel, isUndef] using h

/-! ### Claim C2 -/

/-- C2, as stated, is false: reset breaks the invariant.  Starting from a
guarded container, reset installs a fresh, completely unfrozen attributes
tree but never clears the GuardedState entry, so the guarded flag is
still true while ordinary writes once again succeed. -/
theorem c2_counterexample :
    ((Bag.mk' [("a", Value.num 1)] true none).bind (fun b =>
      b.reset [("b", Value.num 2)] false)).map (fun b2 =>
        (b2.isGuarded, frozenSkel b2.attributes,
          (b2.set "b" (Value.num 3)).get "b" Value.vnull))
      = .ok (some true, false, Value.num 3) := rfl

/-- C2 (amended): the invariant (guarded flag true implies every
plain-mapping node reachable through plain mappings is frozen) holds
after guard and is preserved by set, forget, put, defaults, unguard and
mutate — but not by reset, which is excluded here.  Moreover guard
freezes exactly the plain-mapping skeleton: entries holding non-plain
values (arrays, model instances, primitives) are left untouched, not
recursively frozen. -/
theorem c2_amended (b : Bag) (k : String) (v : Value)
    (src dsrc : List (String × Value)) (hInv : BagInv b) :
    BagInv (b.set k v) ∧ BagInv (b.forget k) ∧ BagInv (b.put src) ∧
    BagInv (b.defaults dsrc) ∧
    (∀ b', b.guard = .ok b' → BagInv b') ∧
    BagInv b.unguard ∧
    (∀ b', b.mutate k v = .ok b' → BagInv b') ∧
    (∀ fz es b', b.attributes = .obj fz es → b.guard = .ok b' →
      b'.attributes = .obj true (es.map (fun kv => (kv.1, freezeV kv.2))) ∧
      ∀ kv ∈ es, isObjB kv.2 = false → freezeV kv.2 = kv.2) := by
  refine ⟨?_, ?_, ?_, ?_, ?_, ?_, ?_, ?_⟩
  · intro hq
    have hq' : b.gstate = some true := hq
    exact setPath_frozenSkel _ _ _ (hInv hq')
  · intro hq
    have hq' : b.gstate = some true := hq
    exact unsetPath_frozenSkel _ _ (hInv hq')
  · intro hq
    have hq' : b.gstate = some true := by
      rw [← put_gstate b src]; exact hq
    have hfr := hInv hq'
    rw [put_attributes_of_frozenSkel b src hfr]
    exact hfr
  · intro hq
    have hq' : b.gstate = some true := by
      rw [← defaults_gstate b dsrc]; exact hq
    have hfr := hInv hq'
    rw [defaults_attributes_of_frozenSkel b dsrc hfr]
    exact hfr
  · intro b' hgok
    obtain ⟨hb', hfr⟩ := guard_ok_elim b b' hgok
    intro _
    exact hfr
  · intro hq
    simp [Bag.unguard] at hq
  · intro b' hmok
    by_cases hgs : b.gstate = some true
    · rw [mutate_guarded b k v hgs] at hmok
      obtain ⟨hb', hfr⟩ := guard_ok_elim _ b' hmok
      intro _
      exact hfr
    · rw [mutate_unguarded b k v hgs] at hmok
      have hb' : b.set k v = b' := by
        simpa using hmok
      subst hb'
      intro hq
      exact absurd hq hgs
  · intro fz es b' hA hgok
    obtain ⟨hb', hfr⟩ := guard_ok_elim b b' hgok
    subst hb'
    constructor
    · simp [hA, freezeV, freezeVEs_map]
    · intro kv hkv hno
      exact freezeV_nonobj kv.2 hno

/-- Witness for c2_amended at a concrete guarded container. -/
theorem c2_amended_witness :
    BagInv (Bag.set ⟨Value.obj true [("a", Value.num 1)], none, some true⟩ "a"
      (Value.num 2)) :=
  (c2_amended ⟨Value.obj true [("a", Value.num 1)], none, some true⟩ "a"
    (Value.num 2) [] [] (fun _ => rfl)).1

/-! ### Claim C3 -/

/-- C3, as stated, is false for some values: mutate on a guarded
container re-runs guard at the end, and Support.freeze throws a TypeError
(strict-mode write to a frozen object) when the value just stored is an
already-frozen plain mapping that itself contains a plain-mapping child,
so mutate raises instead of succeeding. -/
theorem c3_counterexample :
    (Bag.mk' [("a", Value.num 1)] true none).bind (fun b =>
      b.mutate "x" (Value.obj true [("b", Value.obj true [])])) = .error () := rfl

/-- C3 (amended): for every key and every value whose stored form has no
already-frozen plain mapping in its plain-mapping skeleton (every
ordinary value) and is not undefined (get would substitute the fallback
for a stored undefined), mutate on a container with plain-data
attributes in which nothing except the guard freeze itself is frozen
succeeds, leaves the guarded flag exactly as it was, and get then yields
the stored value (equal up to frozen flags, since re-guarding freezes
it); on an unguarded such container it performs the write, leaves the
flag untouched, and get yields the stored value; in both cases it
returns the resulting container.  The key may reach through arrays and
model instances. -/
theorem c3_amended (b : Bag) (k : String) (v fb : Value)
    (h1 : isObjB b.attributes = true)
    (h2 : noFrozenB (if b.gstate = some true then unfreezeV b.attributes
            else b.attributes) = true)
    (h3 : skelUnfrozen (b.convertToModel v) = true)
    (h4 : isUndef (b.convertToModel v) = false) :
    ∃ b', b.mutate k v = .ok b' ∧ b'.gstate = b.gstate ∧
      strip (b'.get k fb) = strip (b.convertToModel v) := by
  by_cases hgs : b.gstate = some true
  · rw [if_pos hgs] at h2
    have hok := setOk_of_noFrozen (splitKey k) (unfreezeV b.attributes) h2
      (isObjectV_of_isObjB _ (isObjB_unfreezeV _ h1))
    have hrt0 := setget_roundtrip (splitKey k) (unfreezeV b.attributes)
      (b.convertToModel v) (splitKey_ne_nil k) hok
    rw [h4] at hrt0
    simp only [Bool.false_eq_true, if_false] at hrt0
    set u := setPath (unfreezeV b.attributes) (splitKey k) (b.convertToModel v) with hu
    have hskel : skelUnfrozen u = true :=
      setPath_skelUnfrozen _ _ _ (skelUnfrozen_unfreezeV b.attributes) h3
    have hfz := freezeE_ok_of_skelUnfrozen _ hskel
    refine ⟨⟨freezeV u, b.attrModel, some true⟩, ?_, ?_, ?_⟩
    · rw [mutate_guarded b k v hgs]
      have hX : (b.unguard.set k v).attributes = u := rfl
      simp only [Bag.guard, hX, hfz, Bind.bind, Except.bind, Pure.pure, Except.pure]
      rfl
    · simp [hgs]
    · show strip ((getPath (freezeV u) (splitKey k)).getD fb) =
        strip (b.convertToModel v)
      have e1 := getPath_strip (splitKey k) (freezeV u)
      rw [strip_freezeV] at e1
      have e2 := getPath_strip (splitKey k) u
      have hmap : (getPath (freezeV u) (splitKey k)).map strip =
          some (strip (b.convertToModel v)) := by
        rw [← e1, e2, hrt0]
        rfl
      obtain ⟨w, hw1, hw2⟩ := Option.map_eq_some'.1 hmap
      rw [hw1]
      simpa using hw2
  · rw [if_neg hgs] at h2
    have hok := setOk_of_noFrozen (splitKey k) b.attributes h2
      (isObjectV_of_isObjB _ h1)
    have hrt := setget_roundtrip (splitKey k) b.attributes (b.convertToModel v)
      (splitKey_ne_nil k) hok
    rw [h4] at hrt
    simp only [Bool.false_eq_true, if_false] at hrt
    refine ⟨b.set k v, mutate_unguarded b k v hgs, rfl, ?_⟩
    show strip ((getPath (setPath b.attributes (splitKey k) (b.convertToModel v))
      (splitKey k)).getD fb) = strip (b.convertToModel v)
    rw [hrt]
    rfl

/-- Witness for c3_amended: mutate through an array element of a
concrete guarded container. -/
theorem c3_amended_witness :
    ∃ b', Bag.mutate ⟨Value.obj true [("xs", Value.arr [Value.num 1] [])], none,
        some true⟩ "xs.0" (Value.num 2) = .ok b' ∧
      b'.gstate = some true ∧
      strip (b'.get "xs.0" Value.vnull) = strip (Value.num 2) :=
  c3_amended ⟨Value.obj true [("xs", Value.arr [Value.num 1] [])], none, some true⟩
    "xs.0" (Value.num 2) Value.vnull rfl rfl rfl rfl

/-! ### Claim C4 -/

/-- C4, as stated, is false: freezing an already-frozen mapping that has
a plain-mapping child raises a TypeError, because Support.freeze (strict
mode) reassigns each plain child into the now-frozen parent.  The first
freeze succeeds; the second throws. -/
theorem c4_counterexample :
    freezeE (Value.obj false [("a", Value.obj false [])]) =
      .ok (Value.obj true [("a", Value.obj true [])]) ∧
    freezeE (Value.obj true [("a", Value.obj true [])]) = .error () :=
  ⟨rfl, rfl⟩

/-- C4 (amended): freeze is idempotent exactly on mappings none of whose
entries is a plain mapping: freezing such a mapping returns it (flagged
frozen) without raising, and freezing the result again returns it
unchanged without raising.  With a plain-mapping child present, a second
freeze raises (see the counterexample). -/
theorem c4_amended (fz : Bool) (es : List (String × Value))
    (h : ∀ kv ∈ es, isObjB kv.2 = false) :
    freezeE (Value.obj fz es) = .ok (Value.obj true es) ∧
    freezeE (Value.obj true es) = .ok (Value.obj true es) := by
  have h1 := freezeEs_flat fz es h
  have h2 := freezeEs_flat true es h
  constructor
  · simp [freezeE, h1, Bind.bind, Except.bind, Pure.pure, Except.pure]
  · simp [freezeE, h2, Bind.bind, Except.bind, Pure.pure, Except.pure]

/-- Witness for c4_amended on a flat mapping. -/
theorem c4_amended_witness :
    freezeE (Value.obj false [("a", Value.num 1)]) =
      .ok (Value.obj true [("a", Value.num 1)]) :=
  (c4_amended false [("a", Value.num 1)] (by simp [isObjB])).1

/-! ### Claim C5 -/

/-- C5, as stated, is false for some plain nested mappings: when the
mapping already contains a frozen plain mapping that itself has a
plain-mapping child, freeze throws a TypeError before unfreeze can run
(the strict-mode reassignment into the frozen part fails), so
unfreeze(freeze(m)) is not defined for every plain nested mapping m. -/
theorem c5_counterexample :
    freezeE (Value.obj false [("a", Value.obj true [("b", Value.obj false [])])])
      = .error () := rfl

/-- C5 (amended): for a plain nested mapping none of whose plain-mapping
nodes is already frozen (so freeze succeeds), unfreeze after freeze
yields exactly what unfreeze of the original yields: a brand-new
unfrozen top-level mapping, structurally equal to the original
(identical after erasing frozen flags), with a fully mutable
plain-mapping skeleton, in which every non-plain-mapping entry value
(array, model instance, primitive) is carried over unchanged — by
reference in JavaScript terms — rather than copied or unfrozen. -/
theorem c5_freeze_unfreeze (fz : Bool) (es : List (String × Value))
    (h : skelUnfrozen (Value.obj fz es) = true) :
    ∃ r, freezeE (Value.obj fz es) = .ok r ∧
      unfreezeV r = unfreezeV (Value.obj fz es) ∧
      strip (unfreezeV r) = strip (Value.obj fz es) ∧
      skelUnfrozen (unfreezeV r) = true ∧
      unfreezeV r = Value.obj false
        (es.map (fun kv => (kv.1, if isObjB kv.2 then unfreezeV kv.2 else kv.2))) := by
  refine ⟨freezeV (Value.obj fz es), freezeE_ok_of_skelUnfrozen _ h, ?_, ?_, ?_, ?_⟩
  · exact unfreeze_freezeV _
  · rw [unfreeze_freezeV, strip_unfreezeV]
  · rw [unfreeze_freezeV]
    exact skelUnfrozen_unfreezeV _
  · rw [unfreeze_freezeV]
    simp [unfreezeV, unfreezeEs_map]

/-- Witness for c5_freeze_unfreeze on a concrete nested mapping holding
a nested plain mapping, an array and a primitive. -/
theorem c5_freeze_unfreeze_witness :
    ∃ r, freezeE (Value.obj false
        [("a", Value.obj false [("b", Value.num 1)]),
         ("xs", Value.arr [Value.num 2] []), ("c", Value.num 3)]) = .ok r ∧
      unfreezeV r = unfreezeV (Value.obj false
        [("a", Value.obj false [("b", Value.num 1)]),
         ("xs", Value.arr [Value.num 2] []), ("c", Value.num 3)]) ∧
      strip (unfreezeV r) = strip (Value.obj false
        [("a", Value.obj false [("b", Value.num 1)]),
         ("xs", Value.arr [Value.num 2] []), ("c", Value.num 3)]) ∧
      skelUnfrozen (unfreezeV r) = true ∧
      unfreezeV r = Value.obj false
        ([("a", Value.obj false [("b", Value.num 1)]),
          ("xs", Value.arr [Value.num 2] []), ("c", Value.num 3)].map
            (fun kv => (kv.1, if isObjB kv.2 then unfreezeV kv.2 else kv.2))) :=
  c5_freeze_unfreeze false
    [("a", Value.obj false [("b", Value.num 1)]),
     ("xs", Value.arr [Value.num 2] []), ("c", Value.num 3)] rfl

/-! ### Claim C6 -/

/-- C6, as stated, is false for v = undefined: after set("x", undefined)
on an unguarded container with no AttributeModel, the key exists (has is
true) yet get returns the supplied fallback, not undefined — lodash get
substitutes the fallback for an undefined result even when the path is
fully present. -/
theorem c6_counterexample :
    ((Bag.mk' [] false none).map (fun b0 =>
      ((b0.set "x" Value.undef).has "x",
        (b0.set "x" Value.undef).get "x" (Value.num 7))))
      = .ok (true, Value.num 7) := rfl

/-- C6 (amended): after set(k, v) on an unguarded plain-data container
in which nothing is frozen (the path may pass through nested mappings,
arrays and model instances), get(k) returns the stored value — the model
wrapping of v when an AttributeModel is configured, exactly v otherwise
— except that when the stored value is undefined (v = undefined with no
model) get returns the supplied fallback; the fallback is likewise
returned when a path segment is absent. -/
theorem c6_amended (b : Bag) (k : String) (v fb : Value)
    (h1 : isObjB b.attributes = true)
    (h2 : noFrozenB b.attributes = true) :
    (b.set k v).get k fb =
      (if isUndef (b.convertToModel v) then fb else b.convertToModel v) := by
  have hok := setOk_of_noFrozen (splitKey k) b.attributes h2
    (isObjectV_of_isObjB _ h1)
  have hrt := setget_roundtrip (splitKey k) b.attributes (b.convertToModel v)
    (splitKey_ne_nil k) hok
  show (getPath (setPath b.attributes (splitKey k) (b.convertToModel v))
    (splitKey k)).getD fb = _
  rw [hrt]
  cases hv : isUndef (b.convertToModel v) <;> simp [hv]

/-- Witness for c6_amended: a write through an array element of an
ordinary container. -/
theorem c6_amended_witness :
    (Bag.set ⟨Value.obj false [("xs", Value.arr [Value.num 1] [])], none, none⟩
      "xs.0" (Value.num 3)).get "xs.0" Value.vnull = Value.num 3 := by
  have h := c6_amended ⟨Value.obj false [("xs", Value.arr [Value.num 1] [])], none,
    none⟩ "xs.0" (Value.num 3) Value.vnull rfl rfl
  simpa [Bag.convertToModel, isUndef] using h

/-! ### Claim C7 -/

/-- C7, as stated, is false: on a container holding {a: 1}, get with the
empty key returns the fallback (lodash resolves "" to the single segment
"" and looks up that literal key), and get with an absent key argument
looks up the literal key "undefined" — neither resolves to the whole
attributes tree, which is still {a: 1}. -/
theorem c7_counterexample :
    (Bag.mk' [("a", Value.num 1)] false none).map (fun b =>
      (b.get "" (Value.num 9), b.getNoKey (Value.num 9), b.attributes))
      = .ok (Value.num 9, Value.num 9, Value.obj false [("a", Value.num 1)]) := rfl

/-- C7 (amended): get with the empty key resolves the one-segment path
[""] (the entry stored under the empty-string key, or the fallback when
absent), and get with the key argument omitted resolves the literal key
"undefined"; neither ever resolves to the whole attributes tree. -/
theorem c7_amended (fz : Bool) (es : List (String × Value))
    (m : Option (Value → List (String × Value))) (g : Option Bool) (fb : Value)
    (h1 : lookupEntry es "" = none) (h2 : lookupEntry es "undefined" = none) :
    Bag.get ⟨Value.obj fz es, m, g⟩ "" fb = fb ∧
    Bag.getNoKey ⟨Value.obj fz es, m, g⟩ fb = fb := by
  constructor
  · have hsk : splitKey "" = [""] := rfl
    simp [Bag.get, hsk, getPath, childAt, entryAt, h1]
  · simp [Bag.getNoKey, getPath, childAt, entryAt, h2]

/-- Witness for c7_amended at a concrete container. -/
theorem c7_amended_witness :
    Bag.get ⟨Value.obj false [("a", Value.num 1)], none, none⟩ "" (Value.num 9)
      = Value.num 9 :=
  (c7_amended false [("a", Value.num 1)] none none (Value.num 9) rfl rfl).1

/-! ### Claim C8 -/

/-- C8: with an AttributeModel configured (modeled by the factory f that
builds a fresh instance's own properties from the raw value), set stores
the wrapped value new AttributeModel(v) (and reset, delegating to set,
does the same), while put merges the given top-level keys raw, bypassing
convertToModel: get then yields the wrapper for set/reset but the raw
value for put. -/
theorem c8_put_raw_set_wrapped (es : List (String × Value)) (g : Option Bool)
    (f : Value → List (String × Value)) (k : String) (v fb : Value)
    (hk : k.data.contains '.' = false) (hv : isUndef v = false) :
    (Bag.set ⟨Value.obj false es, some f, g⟩ k v).get k fb = Value.model (f v) ∧
    (Bag.put ⟨Value.obj false es, some f, g⟩ [(k, v)]).get k fb = v ∧
    (∃ bN, Bag.reset ⟨Value.obj false es, some f, g⟩ [(k, v)] false = .ok bN ∧
      bN.get k fb = Value.model (f v)) := by
  have hsk := splitKey_nodot k hk
  refine ⟨?_, ?_, ?_⟩
  · show (getPath (setPath (Value.obj false es) (splitKey k) (Value.model (f v)))
      (splitKey k)).getD fb = Value.model (f v)
    rw [hsk]
    have hch := childAt_obj_some false
      (lookup_setEntry_self es k (Value.model (f v))) rfl
    simp [setPath, assignValue, getPath, hch]
  · show (getPath (Value.obj false (List.foldl
      (fun acc kv => setEntry acc kv.1 kv.2) es [(k, v)])) (splitKey k)).getD fb = v
    rw [hsk]
    have hch := childAt_obj_some false (lookup_setEntry_self es k v) hv
    simp [List.foldl, getPath, hch]
  · refine ⟨_, reset_false_ok _ _, ?_⟩
    show (getPath (setPath (Value.obj false []) (splitKey k) (Value.model (f v)))
      (splitKey k)).getD fb = Value.model (f v)
    rw [hsk]
    have hch := childAt_obj_some false
      (lookup_setEntry_self [] k (Value.model (f v))) rfl
    simp [setPath, assignValue, getPath, hch]

/-- Witness for c8_put_raw_set_wrapped at the spec scenario: the wrapper
model building {raw: v}. -/
theorem c8_put_raw_set_wrapped_witness :
    (Bag.set ⟨Value.obj false [], some (fun v => [("raw", v)]), none⟩ "x"
      (Value.num 5)).get "x" Value.vnull
      = Value.model [("raw", Value.num 5)] :=
  (c8_put_raw_set_wrapped [] none (fun v => [("raw", v)]) "x" (Value.num 5)
    Value.vnull rfl rfl).1

/-! ### Claim C9 -/

theorem lookup_applyDefaults_notin :
    ∀ (src es : List (String × Value)) (k : String),
      k ∉ src.map Prod.fst →
      lookupEntry (Bag.applyDefaults es src) k = lookupEntry es k
  | [], es, k => fun _ => rfl
  | (k', dv') :: rest, es, k => fun h => by
      have hk : k ≠ k' := by
        intro he
        exact h (by simp [he])
      have hrest : k ∉ rest.map Prod.fst := by
        intro hr
        exact h (by simp [hr])
      cases hl : lookupEntry es k' with
      | none =>
          simp only [Bag.applyDefaults, hl]
          rw [lookup_applyDefaults_notin rest _ k hrest, lookup_append]
          cases hke : lookupEntry es k with
          | some w => rfl
          | none => simp [lookupEntry, Ne.symm hk]
      | some w =>
          cases w with
          | undef =>
              simp only [Bag.applyDefaults, hl]
              rw [lookup_applyDefaults_notin rest _ k hrest]
              exact lookup_setEntry_ne es k' k dv' hk
          | vnull =>
              simp only [Bag.applyDefaults, hl]
              exact lookup_applyDefaults_notin rest es k hrest
          | num n =>
              simp only [Bag.applyDefaults, hl]
              exact lookup_applyDefaults_notin rest es k hrest
          | str st =>
              simp only [Bag.applyDefaults, hl]
              exact lookup_applyDefaults_notin rest es k hrest
          | obj fz oes =>
              simp only [Bag.applyDefaults, hl]
              exact lookup_applyDefaults_notin rest es k hrest
          | arr items props =>
              simp only [Bag.applyDefaults, hl]
              exact lookup_applyDefaults_notin rest es k hrest
          | model w2 =>
              simp only [Bag.applyDefaults, hl]
              exact lookup_applyDefaults_notin rest es k hrest

theorem lookup_applyDefaults :
    ∀ (src es : List (String × Value)) (k : String) (dv : Value),
      (src.map Prod.fst).Nodup → (k, dv) ∈ src →
      lookupEntry (Bag.applyDefaults es src) k =
        (match lookupEntry es k with
         | none => some dv
         | some .undef => some dv
         | some w => some w)
  | [], es, k, dv => fun _ hm => absurd hm (List.not_mem_nil _)
  | (k', dv') :: rest, es, k, dv => fun hnd hm => by
      rw [List.map_cons] at hnd
      have hnd' := List.nodup_cons.1 hnd
      rcases List.mem_cons.1 hm with he | hmr
      · injection he with he1 he2
        subst he1
        subst he2
        cases hl : lookupEntry es k with
        | none =>
            simp only [Bag.applyDefaults, hl]
            rw [lookup_applyDefaults_notin rest _ k hnd'.1, lookup_append, hl]
            simp [lookupEntry]
        | some w =>
            cases w with
            | undef =>
                simp only [Bag.applyDefaults, hl]
                rw [lookup_applyDefaults_notin rest _ k hnd'.1,
                  lookup_setEntry_self]
            | vnull =>
                simp only [Bag.applyDefaults, hl]
                rw [lookup_applyDefaults_notin rest _ k hnd'.1, hl]
            | num n =>
                simp only [Bag.applyDefaults, hl]
                rw [lookup_applyDefaults_notin rest _ k hnd'.1, hl]
            | str st =>
                simp only [Bag.applyDefaults, hl]
                rw [lookup_applyDefaults_notin rest _ k hnd'.1, hl]
            | obj fz oes =>
                simp only [Bag.applyDefaults, hl]
                rw [lookup_applyDefaults_notin rest _ k hnd'.1, hl]
            | arr items props =>
                simp only [Bag.applyDefaults, hl]
                rw [lookup_applyDefaults_notin rest _ k hnd'.1, hl]
            | model w2 =>
                simp only [Bag.applyDefaults, hl]
                rw [lookup_applyDefaults_notin rest _ k hnd'.1, hl]
      · have hkk : k ≠ k' := by
          intro he2
          subst he2
          exact hnd'.1 (by simpa using List.mem_map_of_mem Prod.fst hmr)
        cases hl : lookupEntry es k' with
        | none =>
            simp only [Bag.applyDefaults, hl]
            rw [lookup_applyDefaults rest (es ++ [(k', dv')]) k dv hnd'.2 hmr]
            have hsame : lookupEntry (es ++ [(k', dv')]) k = lookupEntry es k := by
              rw [lookup_append]
              cases hke : lookupEntry es k with
              | some w => rfl
              | none => simp [lookupEntry, Ne.symm hkk]
            rw [hsame]
        | some w =>
            cases w with
            | undef =>
                simp only [Bag.applyDefaults, hl]
                rw [lookup_applyDefaults rest (setEntry es k' dv') k dv hnd'.2 hmr,
                  lookup_setEntry_ne es k' k dv' hkk]
            | vnull =>
                simp only [Bag.applyDefaults, hl]
                exact lookup_applyDefaults rest es k dv hnd'.2 hmr
            | num n =>
                simp only [Bag.applyDefaults, hl]
                exact lookup_applyDefaults rest es k dv hnd'.2 hmr
            | str st =>
                simp only [Bag.applyDefaults, hl]
                exact lookup_applyDefaults rest es k dv hnd'.2 hmr
            | obj fz oes =>
                simp only [Bag.applyDefaults, hl]
                exact lookup_applyDefaults rest es k dv hnd'.2 hmr
            | arr items props =>
                simp only [Bag.applyDefaults, hl]
                exact lookup_applyDefaults rest es k dv hnd'.2 hmr
            | model w2 =>
                simp only [Bag.applyDefaults, hl]
                exact lookup_applyDefaults rest es k dv hnd'.2 hmr

/-- C9, as stated, is false for keys holding undefined: lodash defaults
assigns the default whenever the current value of the key is undefined,
so an existing key whose stored value is undefined is overwritten. -/
theorem c9_counterexample :
    ((Bag.mk' [] false none).map (fun b0 =>
      ((b0.set "a" Value.undef).has "a",
        ((b0.set "a" Value.undef).defaults [("a", Value.num 1)]).get "a"
          Value.vnull)))
      = .ok (true, Value.num 1) := rfl

/-- C9 (amended): defaults assigns a default exactly for the top-level
keys that are absent or whose current value is undefined; any existing
key holding a value other than undefined keeps its value. -/
theorem c9_amended (es : List (String × Value))
    (m : Option (Value → List (String × Value))) (g : Option Bool)
    (src : List (String × Value)) (k : String) (dv fb : Value)
    (hnd : (src.map Prod.fst).Nodup) (hmem : (k, dv) ∈ src)
    (hdv : isUndef dv = false) (hk : k.data.contains '.' = false) :
    (Bag.defaults ⟨Value.obj false es, m, g⟩ src).get k fb =
      (match lookupEntry es k with
       | none => dv
       | some .undef => dv
       | some w => w) := by
  have hsk := splitKey_nodot k hk
  have hl := lookup_applyDefaults src es k dv hnd hmem
  show (getPath (Value.obj false (Bag.applyDefaults es src)) (splitKey k)).getD fb = _
  rw [hsk]
  cases hke : lookupEntry es k with
  | none =>
      rw [hke] at hl
      simp only at hl
      have hch := childAt_obj_some false hl hdv
      simp [getPath, hch]
  | some w =>
      cases w with
      | undef =>
          rw [hke] at hl
          simp only at hl
          have hch := childAt_obj_some false hl hdv
          simp [getPath, hch]
      | vnull =>
          rw [hke] at hl
          simp only at hl
          have hch := childAt_obj_some false hl rfl
          simp [getPath, hch]
      | num n =>
          rw [hke] at hl
          simp only at hl
          have hch := childAt_obj_some false hl rfl
          simp [getPath, hch]
      | str st =>
          rw [hke] at hl
          simp only at hl
          have hch := childAt_obj_some false hl rfl
          simp [getPath, hch]
      | obj fz oes =>
          rw [hke] at hl
          simp only at hl
          have hch := childAt_obj_some false hl rfl
          simp [getPath, hch]
      | arr items props =>
          rw [hke] at hl
          simp only at hl
          have hch := childAt_obj_some false hl rfl
          simp [getPath, hch]
      | model w2 =>
          rw [hke] at hl
          simp only at hl
          have hch := childAt_obj_some false hl rfl
          simp [getPath, hch]

/-- Witness for c9_amended: an existing non-undefined value survives. -/
theorem c9_amended_witness :
    (Bag.defaults ⟨Value.obj false [("a", Value.num 2)], none, none⟩
      [("a", Value.num 1)]).get "a" Value.vnull = Value.num 2 :=
  c9_amended [("a", Value.num 2)] none none [("a", Value.num 1)] "a"
    (Value.num 1) Value.vnull (by simp) (by simp) rfl rfl

/-! ### Claim C10 -/

/-- C10: a container constructed, or reset, with guarded = false — on
which guard() and unguard() have never run — answers isGuarded() with
undefined (none), not false: the GuardedState WeakMap entry is written
only by guard() and unguard(), never at construction or by reset. -/
theorem c10_guarded_flag_uninitialized (attrs : List (String × Value))
    (m : Option (Value → List (String × Value))) (b0 : Bag) :
    (∃ b, Bag.mk' attrs false m = .ok b ∧ b.isGuarded = none) ∧
    (∃ b2, b0.reset attrs false = .ok b2 ∧ b2.isGuarded = b0.isGuarded) := by
  constructor
  · refine ⟨_, reset_false_ok _ _, ?_⟩
    show (attrs.foldl (fun (acc : Bag) kv => acc.set kv.1 kv.2) _).gstate = none
    rw [foldl_set_gstate]
  · refine ⟨_, reset_false_ok _ _, ?_⟩
    show (attrs.foldl (fun (acc : Bag) kv => acc.set kv.1 kv.2) _).gstate = b0.gstate
    rw [foldl_set_gstate]
